import Mathlib

/-!
# Verification of the sys1 trading system core

Shallow embedding of the risk-based lot sizing (mt5_handler.py) and of the
position reconciliation controller (partial_closing_manager.py), together
with proofs and refutations of the frozen specification claims.

Machine floats of the Python source are modelled as rationals; Python round
is modelled as round-half-to-even on rationals; division by zero yields 0 in
the rational model.
-/

namespace Sys1

/-- Round-half-to-even of a rational to the nearest integer
(the behaviour of the Python builtin round on exact values). -/
def pyRoundInt (x : ℚ) : ℤ :=
  let n := ⌊x⌋
  let f := x - (n : ℚ)
  if f < 1/2 then n
  else if 1/2 < f then n + 1
  else if n % 2 = 0 then n else n + 1

/-- Python round(x, 2): round-half-to-even at two decimal places. -/
def pyRound2 (x : ℚ) : ℚ := (pyRoundInt (x * 100) : ℚ) / 100

theorem pyRoundInt_intCast (n : ℤ) : pyRoundInt (n : ℚ) = n := by
  unfold pyRoundInt
  simp

/-- Rounding at two decimals is the identity on rationals that are exact
at two decimals. -/
theorem pyRound2_exact (x : ℚ) (m : ℤ) (h : x * 100 = (m : ℚ)) : pyRound2 x = x := by
  unfold pyRound2
  rw [h, pyRoundInt_intCast]
  field_simp at h ⊢
  linarith

/-- Instrument metadata returned by mt5.symbol_info, as consumed by
calculate_lot_size (mt5_handler.py). -/
structure SymbolInfo where
  trade_tick_value : ℚ
  trade_tick_size : ℚ
  volume_min : ℚ
  volume_step : ℚ
  volume_max : ℚ
deriving DecidableEq

/-- The per-target share computed by calculate_lot_size
(mt5_handler.py lines 128-130): divide the raw volume evenly across the
targets, lift to the instrument minimum, and round up to the volume step. -/
def lotShare (raw_total_volume : ℚ) (num_tps : ℤ) (si : SymbolInfo) : ℚ :=
  let raw_volume_per_tp := raw_total_volume / (num_tps : ℚ)
  let adjusted_volume_per_tp := max raw_volume_per_tp si.volume_min
  (⌈adjusted_volume_per_tp / si.volume_step⌉ : ℚ) * si.volume_step

/-- The raw risk-compliant volume of calculate_lot_size
(mt5_handler.py lines 96-122): risk amount divided by the per-lot risk. -/
def rawTotalVolume (balance risk_per_trade_percent entry_price sl_price : ℚ)
    (si : SymbolInfo) : ℚ :=
  (balance * (risk_per_trade_percent / 100)) /
    (|entry_price - sl_price| * (si.trade_tick_value / si.trade_tick_size))

/-- MT5Handler.calculate_lot_size (mt5_handler.py lines 86-139).
The account balance is passed as an Option mirroring the mt5.account_info
failure branch; the symbol metadata likewise.  The tick value and size are
plain rationals, so the Python check for a missing (None) tick value or size
collapses to the zero check kept here. -/
def calculate_lot_size (account_balance : Option ℚ) (risk_per_trade_percent : ℚ)
    (symbolInfo : Option SymbolInfo) (num_tps0 : ℤ)
    (entry_price sl_price : ℚ) : Option ℚ :=
  match account_balance, symbolInfo with
  | some balance, some si =>
    if |entry_price - sl_price| = 0 then none
    else if si.trade_tick_size = 0 then none
    else if |entry_price - sl_price| * (si.trade_tick_value / si.trade_tick_size) = 0
      then none
    else
      let num_tps : ℤ := if num_tps0 ≤ 0 then 1 else num_tps0
      let final_total_volume :=
        lotShare (rawTotalVolume balance risk_per_trade_percent entry_price sl_price si)
          num_tps si * (num_tps : ℚ)
      let clamped := min si.volume_max final_total_volume
      some (pyRound2 (if clamped < si.volume_min then si.volume_min else clamped))
  | _, _ => none

/-- The per-target share is at least the instrument minimum volume
(the share is the ceiling-rounded lift of a value that is at least the
minimum). -/
theorem lotShare_ge_min (raw : ℚ) (N : ℤ) (si : SymbolInfo)
    (hstep : 0 < si.volume_step) : si.volume_min ≤ lotShare raw N si := by
  unfold lotShare
  have h1 : si.volume_min ≤ max (raw / (N : ℚ)) si.volume_min := le_max_right _ _
  refine h1.trans ?_
  have h2 : max (raw / (N : ℚ)) si.volume_min / si.volume_step ≤
      (⌈max (raw / (N : ℚ)) si.volume_min / si.volume_step⌉ : ℚ) := Int.le_ceil _
  calc max (raw / (N : ℚ)) si.volume_min
      = max (raw / (N : ℚ)) si.volume_min / si.volume_step * si.volume_step := by
        field_simp
    _ ≤ (⌈max (raw / (N : ℚ)) si.volume_min / si.volume_step⌉ : ℚ) * si.volume_step := by
        exact mul_le_mul_of_nonneg_right h2 hstep.le

/-- C1 (counterexample): with instrument metadata
tick value 1, tick size 1, volume minimum 1, volume step 1, volume maximum 7,
balance 10000, risk 1 percent, 2 take-profit targets, entry 10, stop 9,
calculate_lot_size returns 7, and 7 is not 2 times any share that is a
multiple of the volume step 1 and at least the minimum 1: the volume_max
clamp breaks the claimed decomposition. -/
theorem C1_counterexample :
    calculate_lot_size (some 10000) 1 (some ⟨1, 1, 1, 1, 7⟩) 2 10 9 = some 7 ∧
    ¬ ∃ share : ℚ, (7 : ℚ) = share * 2 ∧ (∃ k : ℤ, share = (k : ℚ) * 1) ∧
      (1 : ℚ) ≤ share ∧ (7 : ℚ) ≤ 7 := by
  constructor
  · norm_num [calculate_lot_size, lotShare, rawTotalVolume, pyRound2, pyRoundInt]
  · rintro ⟨share, hs1, ⟨k, hs2⟩, hs3, -⟩
    rw [mul_one] at hs2
    subst hs2
    have : (7 : ℤ) = k * 2 := by exact_mod_cast hs1
    omega

/-- C1 (amended): whenever calculate_lot_size succeeds, the instrument
metadata is sane (positive volume step that is a multiple of 0.01,
nonnegative volume minimum), and the unclamped total (per-target share times
the target count N, with N at most 0 treated as 1) does not exceed
volume_max, the returned volume equals N times a single per-target share,
the share is a multiple of volume_step and at least volume_min, and the
total is at most volume_max. -/
theorem C1_amended (balance risk : ℚ) (si : SymbolInfo) (num_tps0 : ℤ)
    (entry sl v : ℚ)
    (hstep : 0 < si.volume_step)
    (hmin : 0 ≤ si.volume_min)
    (hstep100 : ∃ m : ℤ, si.volume_step * 100 = (m : ℚ))
    (hnoclamp :
      lotShare (rawTotalVolume balance risk entry sl si)
          (if num_tps0 ≤ 0 then 1 else num_tps0) si *
        (((if num_tps0 ≤ 0 then 1 else num_tps0) : ℤ) : ℚ) ≤ si.volume_max)
    (hv : calculate_lot_size (some balance) risk (some si) num_tps0 entry sl = some v) :
    ∃ share : ℚ,
      v = share * (((if num_tps0 ≤ 0 then 1 else num_tps0) : ℤ) : ℚ) ∧
      (∃ k : ℤ, share = (k : ℚ) * si.volume_step) ∧
      si.volume_min ≤ share ∧ v ≤ si.volume_max := by
  simp only [calculate_lot_size] at hv
  by_cases h1 : |entry - sl| = 0
  · rw [if_pos h1] at hv; cases hv
  rw [if_neg h1] at hv
  by_cases h2 : si.trade_tick_size = 0
  · rw [if_pos h2] at hv; cases hv
  rw [if_neg h2] at hv
  by_cases h3 : |entry - sl| * (si.trade_tick_value / si.trade_tick_size) = 0
  · rw [if_pos h3] at hv; cases hv
  rw [if_neg h3] at hv
  set N : ℤ := if num_tps0 ≤ 0 then 1 else num_tps0 with hN
  have hN1 : 1 ≤ N := by rw [hN]; split <;> omega
  have hN1Q : (1 : ℚ) ≤ (N : ℚ) := by exact_mod_cast hN1
  set share := lotShare (rawTotalVolume balance risk entry sl si) N si with hsh
  have hshmin : si.volume_min ≤ share := lotShare_ge_min _ _ _ hstep
  have hsh0 : 0 ≤ share := hmin.trans hshmin
  have htot_ge : share ≤ share * (N : ℚ) := le_mul_of_one_le_right hsh0 hN1Q
  rw [min_eq_right hnoclamp] at hv
  rw [if_neg (not_lt.2 (hshmin.trans htot_ge))] at hv
  have hexact : pyRound2 (share * (N : ℚ)) = share * (N : ℚ) := by
    obtain ⟨m, hm⟩ := hstep100
    refine pyRound2_exact _ (⌈max (rawTotalVolume balance risk entry sl si / (N : ℚ))
      si.volume_min / si.volume_step⌉ * m * N) ?_
    rw [hsh]
    unfold lotShare
    push_cast
    rw [← hm]
    ring
  rw [hexact] at hv
  obtain rfl : share * (N : ℚ) = v := Option.some.inj hv
  refine ⟨share, rfl, ⟨⌈max (rawTotalVolume balance risk entry sl si / (N : ℚ))
    si.volume_min / si.volume_step⌉, ?_⟩, hshmin, hnoclamp⟩
  rw [hsh]; rfl

/-- C1 (witness): the amended statement applied to a concrete signal with
2 targets on an instrument with step 1, minimum 1, maximum 100. -/
theorem C1_amended_witness :
    ∃ share : ℚ, (100 : ℚ) = share * 2 ∧
      (∃ k : ℤ, share = (k : ℚ) * 1) ∧ (1 : ℚ) ≤ share ∧ (100 : ℚ) ≤ 100 := by
  have h := C1_amended 10000 1 ⟨1, 1, 1, 1, 100⟩ 2 10 9 100
    (by norm_num) (by norm_num)
    ⟨100, by norm_num⟩
    (by norm_num [lotShare, rawTotalVolume])
    (by norm_num [calculate_lot_size, lotShare, rawTotalVolume, pyRound2, pyRoundInt])
  simpa using h

/-! ## Position reconciliation controller (partial_closing_manager.py) -/

/-- The fields of a parsed signal consumed by the manager:
symbol, ordered take-profit levels, and their count. -/
structure Signal where
  symbol : String
  tps : List ℚ
  num_tps : ℤ
deriving DecidableEq

/-- One record of position_data (PartialClosingManager): the managed state
of a single venue ticket, as created in _process_registration_queue. -/
structure TicketInfo where
  account_login : ℤ
  signal : Signal
  original_volume : ℚ
  closed_tps : List ℤ
  is_secured : Bool
  group_id : String
  pending_close_volume : ℚ
deriving DecidableEq

/-- position_data: the insertion-ordered dict from ticket to record. -/
abbrev MState := List (ℤ × TicketInfo)

/-- Python dict lookup (returns the value of the key, if present). -/
def dictGet (st : MState) (k : ℤ) : Option TicketInfo :=
  match st with
  | [] => none
  | p :: rest => if p.1 = k then some p.2 else dictGet rest k

/-- Python dict key membership test. -/
def dictHas (st : MState) (k : ℤ) : Bool :=
  match st with
  | [] => false
  | p :: rest => p.1 = k || dictHas rest k

/-- Python dict assignment: update in place if the key exists, otherwise
append at the end (insertion order). -/
def dictSet (st : MState) (k : ℤ) (v : TicketInfo) : MState :=
  if dictHas st k then st.map (fun p => if p.1 = k then (k, v) else p)
  else st ++ [(k, v)]

/-- In-place update of the record of an existing key (no-op when absent). -/
def dictModify (st : MState) (k : ℤ) (f : TicketInfo → TicketInfo) : MState :=
  st.map (fun p => if p.1 = k then (p.1, f p.2) else p)

/-- The keys of the dict, in insertion order. -/
def dictKeys (st : MState) : List ℤ := st.map Prod.fst

/-- A registration task pushed by MT5Handler._execute_single_order on
confirmed order acceptance. -/
structure RegTask where
  ticket : ℤ
  account_login : ℤ
  signal_data : Signal
  original_volume : ℚ
  group_id : String
deriving DecidableEq

/-- The fresh record materialized for a registration
(_process_registration_queue lines 103-111). -/
def regRecord (t : RegTask) : TicketInfo :=
  { account_login := t.account_login
    signal := t.signal_data
    original_volume := t.original_volume
    closed_tps := []
    is_secured := false
    group_id := t.group_id
    pending_close_volume := 0 }

/-- PartialClosingManager._process_registration_queue: drain the queue in
order, inserting a fresh record per task; report whether anything changed. -/
def processRegistrationQueue (queue : List RegTask) (st : MState) : MState × Bool :=
  match queue with
  | [] => (st, false)
  | t :: rest =>
    ((processRegistrationQueue rest (dictSet st t.ticket (regRecord t))).1, true)

/-- A venue-reported open position (the fields the manager reads). -/
structure Position where
  ticket : ℤ
  symbol : String
  volume : ℚ
  ptype : ℤ
  price_open : ℚ
  tp : ℚ
deriving DecidableEq

/-- A venue-reported pending order (the manager reads only the ticket). -/
structure Order where
  ticket : ℤ
deriving DecidableEq

def ORDER_TYPE_BUY : ℤ := 0
def ORDER_TYPE_SELL : ℤ := 1

/-- PartialClosingManager._find_handler_by_login over the handler list,
each handler represented by its account login. -/
def findHandlerByLogin (handlers : List ℤ) (login : ℤ) : Option ℤ :=
  handlers.find? (fun h => h == login)

/-- A close request as issued by _close_full / _close_partial:
the position ticket, the handler login, and the requested volume. -/
structure CloseReq where
  ticket : ℤ
  login : ℤ
  volume : ℚ
deriving DecidableEq

/-- _close_full: a partial close of the full position volume. -/
def closeFullReq (pos : Position) (login : ℤ) : CloseReq :=
  ⟨pos.ticket, login, pos.volume⟩

/-- All tickets the venue still reports (open positions plus pending
orders), as computed at the top of _cleanup_closed_trades. -/
def activeTickets (positions : List (Position × ℤ)) (orders : List (Order × ℤ)) :
    List ℤ :=
  positions.map (fun p => p.1.ticket) ++ orders.map (fun o => o.1.ticket)

/-- The ghost-close loop of _cleanup_closed_trades (lines 123-129): every
snapshot position whose ticket is not managed is force-closed at full
volume, provided a handler with its login exists. -/
def ghostCloseCalls (handlers : List ℤ) (st : MState) :
    List (Position × ℤ) → List CloseReq
  | [] => []
  | (pos, login) :: rest =>
    (if dictHas st pos.ticket then []
     else
       match findHandlerByLogin handlers login with
       | some _ => [closeFullReq pos login]
       | none => []) ++ ghostCloseCalls handlers st rest

/-- PartialClosingManager._cleanup_closed_trades: issue ghost closes, then
drop every managed ticket that is no longer active on the venue. -/
def cleanupClosedTrades (handlers : List ℤ) (positions : List (Position × ℤ))
    (orders : List (Order × ℤ)) (st : MState) : MState × Bool × List CloseReq :=
  let ghosts := ghostCloseCalls handlers st positions
  let active := activeTickets positions orders
  let st2 := st.filter (fun p => active.contains p.1)
  let changed := st.any (fun p => ! active.contains p.1)
  (st2, changed, ghosts)

/-- The symbol metadata fields the manager reads (mt5.symbol_info). -/
structure SymbolMeta where
  digits : ℤ
  point : ℚ
deriving DecidableEq

/-- A live quote (mt5.symbol_info_tick). -/
structure Tick where
  bid : ℚ
  ask : ℚ
deriving DecidableEq

/-- The venue environment of one reconciliation iteration: read-only symbol
metadata and quotes, plus the venue verdict (TRADE_RETCODE_DONE or not) of
the stop-loss modification request for each position ticket. -/
structure Env where
  symbolMeta : String → Option SymbolMeta
  tick : String → Option Tick
  secureOk : ℤ → Bool

/-- Substring containment on strings (the Python in operator). -/
def strContains (s pat : String) : Bool :=
  (List.range (s.data.length + 1)).any (fun i => pat.data.isPrefixOf (s.data.drop i))

/-- MT5Handler.get_symbol_pip_info (mt5_handler.py lines 70-84). -/
def get_symbol_pip_info (env : Env) (broker_symbol : String) : Option ℚ :=
  match env.symbolMeta broker_symbol with
  | none => none
  | some si =>
    let u := broker_symbol.toUpper
    if strContains u "CASH" || strContains u "JP225" || decide (si.digits ≤ 1) then
      some 1
    else if strContains u "JPY" then some (1/100)
    else if strContains u "XAU" && (si.digits == 2 || si.digits == 3) then some (1/100)
    else if si.digits == 4 || si.digits == 5 then some (1/10000)
    else some (10 * si.point)

/-- The trading settings the manager reads. -/
structure Settings where
  secure_tp1_pips_buffer : ℚ
deriving DecidableEq

/-- The pip buffer applied to a take-profit level
(_decide_on_position_actions line 174): only for target 1 and only when the
pip size is known and nonzero. -/
def bufferAmount (settings : Settings) (pip : Option ℚ) (tp_num : ℤ) : ℚ :=
  match pip with
  | some p => if p ≠ 0 ∧ tp_num = 1 then settings.secure_tp1_pips_buffer * p else 0
  | none => 0

/-- The target-hit test (_decide_on_position_actions lines 176-179):
direction-adjusted comparison of the current price against the level. -/
def hitCond (ptype : ℤ) (current_price tp_level buf : ℚ) : Bool :=
  if ptype = ORDER_TYPE_BUY then decide (tp_level - buf ≤ current_price)
  else if ptype = ORDER_TYPE_SELL then decide (current_price ≤ tp_level + buf)
  else false

/-- The inner scan of _decide_on_position_actions (lines 166-197): walk the
take-profit levels in ascending order starting at number n, skip the ones
already consumed, and return the number of the first remaining level whose
hit test passes (the loop breaks there). -/
def firstHitTP (env : Env) (settings : Settings) (symbol : String)
    (closed : List ℤ) (ptype : ℤ) (price : ℚ) : List ℚ → ℤ → Option ℤ
  | [], _ => none
  | tp :: rest, n =>
    if n ∈ closed then firstHitTP env settings symbol closed ptype price rest (n + 1)
    else if hitCond ptype price tp
        (bufferAmount settings (get_symbol_pip_info env symbol) n) then some n
    else firstHitTP env settings symbol closed ptype price rest (n + 1)

/-- An action scheduled by the decision step (run lines 82-91). -/
inductive Action where
  | close (pos : Position) (volume : ℚ) (login : ℤ)
  | secure_group (group_id : String)
deriving DecidableEq

/-- The accumulator of the decision loop: scheduled actions, the dirty
flag, the managed state, and the groups already secured or planned. -/
structure DecideAcc where
  actions : List Action
  changed : Bool
  st : MState
  securedGroups : List String
deriving DecidableEq

/-- The groups already marked secured in the managed state
(_decide_on_position_actions lines 143-146; an empty group id is falsy). -/
def initialSecuredGroups (st : MState) : List String :=
  match st with
  | [] => []
  | p :: rest =>
    (if p.2.is_secured ∧ p.2.group_id ≠ "" then [p.2.group_id] else []) ++
      initialSecuredGroups rest

/-- The body of _decide_on_position_actions for one snapshot position
(lines 148-197): guard on managed membership, handler, symbol metadata and
quote; scan for a hit target; on a hit, record the target as consumed,
schedule a partial close of original_volume / num_tps rounded to 2 decimal
places, and (for target 1 of a not-yet-secured group) schedule one
group-securing action. -/
def decideStep (env : Env) (settings : Settings) (handlers : List ℤ)
    (acc : DecideAcc) : Position × ℤ → DecideAcc
  | (pos, login) =>
    match dictGet acc.st pos.ticket with
    | none => acc
    | some pos_info =>
      match findHandlerByLogin handlers login with
      | none => acc
      | some _ =>
        match env.symbolMeta pos.symbol with
        | none => acc
        | some _ =>
          match env.tick pos.symbol with
          | none => acc
          | some tick =>
            match firstHitTP env settings pos.symbol pos_info.closed_tps pos.ptype
                (if pos.ptype = ORDER_TYPE_SELL then tick.bid else tick.ask)
                pos_info.signal.tps 1 with
            | none => acc
            | some tp_num =>
              if tp_num = 1 ∧ pos_info.group_id ≠ "" ∧
                  pos_info.group_id ∉ acc.securedGroups then
                { actions := acc.actions ++
                    [Action.close pos
                      (pyRound2 (pos_info.original_volume / (pos_info.signal.num_tps : ℚ)))
                      login,
                    Action.secure_group pos_info.group_id]
                  changed := true
                  st := dictSet acc.st pos.ticket
                    { pos_info with closed_tps := pos_info.closed_tps ++ [tp_num] }
                  securedGroups := acc.securedGroups ++ [pos_info.group_id] }
              else
                { actions := acc.actions ++
                    [Action.close pos
                      (pyRound2 (pos_info.original_volume / (pos_info.signal.num_tps : ℚ)))
                      login]
                  changed := true
                  st := dictSet acc.st pos.ticket
                    { pos_info with closed_tps := pos_info.closed_tps ++ [tp_num] }
                  securedGroups := acc.securedGroups }

/-- The decision loop over the snapshot positions, in order. -/
def decideList (env : Env) (settings : Settings) (handlers : List ℤ) :
    List (Position × ℤ) → DecideAcc → DecideAcc
  | [], acc => acc
  | pl :: rest, acc =>
    decideList env settings handlers rest (decideStep env settings handlers acc pl)

/-- PartialClosingManager._decide_on_position_actions (lines 139-198). -/
def decideOnPositionActions (env : Env) (settings : Settings) (handlers : List ℤ)
    (positions : List (Position × ℤ)) (st : MState) : List Action × Bool × MState :=
  let r := decideList env settings handlers positions
    ⟨[], false, st, initialSecuredGroups st⟩
  (r.actions, r.changed, r.st)

/-- One stop-loss modification request sent by _secure_position: the
position ticket, the requested stop (the position open price), and the
venue verdict. -/
structure SecureCall where
  ticket : ℤ
  sl : ℚ
  ok : Bool
deriving DecidableEq

/-- PartialClosingManager._secure_position (lines 218-235): send the
TRADE_ACTION_SLTP request moving the stop to the open price; flip
is_secured to true only after the venue reports TRADE_RETCODE_DONE (and
only if the ticket is still managed); on failure leave the state alone. -/
def securePosition (env : Env) (pos : Position) (st : MState) :
    MState × SecureCall :=
  (if env.secureOk pos.ticket then
     dictModify st pos.ticket (fun i => { i with is_secured := true })
   else st,
   ⟨pos.ticket, pos.price_open, env.secureOk pos.ticket⟩)

/-- PartialClosingManager._secure_trade_group (lines 200-207): secure every
open position of the group that is managed, not yet secured, and whose
login has a handler. -/
def secureTradeGroup (env : Env) (handlers : List ℤ) (group_id : String)
    (positions : List (Position × ℤ)) (st : MState) : MState × List SecureCall :=
  match positions with
  | [] => (st, [])
  | (pos, login) :: rest =>
    match dictGet st pos.ticket with
    | some info =>
      if info.group_id = group_id ∧ info.is_secured = false then
        match findHandlerByLogin handlers login with
        | some _ =>
          let r := securePosition env pos st
          let r2 := secureTradeGroup env handlers group_id rest r.1
          (r2.1, r.2 :: r2.2)
        | none => secureTradeGroup env handlers group_id rest st
      else secureTradeGroup env handlers group_id rest st
    | none => secureTradeGroup env handlers group_id rest st

/-- PartialClosingManager._cancel_pending_orders_for_group (lines 209-216):
the tickets of the pending orders of the group whose deletion is requested. -/
def cancelPendingForGroup (handlers : List ℤ) (group_id : String)
    (orders : List (Order × ℤ)) (st : MState) : List ℤ :=
  match orders with
  | [] => []
  | (o, login) :: rest =>
    (match dictGet st o.ticket with
     | some info =>
       if info.group_id = group_id then
         match findHandlerByLogin handlers login with
         | some _ => [o.ticket]
         | none => []
       else []
     | none => []) ++ cancelPendingForGroup handlers group_id rest st

/-- The accumulator of the action-execution loop of run (lines 79-91). -/
structure ApplyAcc where
  st : MState
  closes : List CloseReq
  secures : List SecureCall
  cancels : List ℤ
  securedGroups : List String
deriving DecidableEq

/-- The action-execution loop of run (lines 79-91), performed outside the
state lock: close actions issue the partial-close request as scheduled;
secure_group actions (deduplicated per group per cycle) secure the group
and then cancel its pending orders. -/
def applyActions (env : Env) (handlers : List ℤ) (positions : List (Position × ℤ))
    (orders : List (Order × ℤ)) : List Action → ApplyAcc → ApplyAcc
  | [], acc => acc
  | Action.close pos volume login :: rest, acc =>
    applyActions env handlers positions orders rest
      { acc with closes := acc.closes ++ [⟨pos.ticket, login, volume⟩] }
  | Action.secure_group g :: rest, acc =>
    if g ∈ acc.securedGroups then applyActions env handlers positions orders rest acc
    else
      let r := secureTradeGroup env handlers g positions acc.st
      let c := cancelPendingForGroup handlers g orders r.1
      applyActions env handlers positions orders rest
        { st := r.1
          closes := acc.closes
          secures := acc.secures ++ r.2
          cancels := acc.cancels ++ c
          securedGroups := acc.securedGroups ++ [g] }

/-- The outcome of one iteration of PartialClosingManager.run: the managed
state after the in-lock bookkeeping (stateAfterDecide) and after executing
the scheduled actions (state), the scheduled actions, the ghost closes and
venue requests issued, and the state snapshot saved to disk, if any. -/
structure IterResult where
  state : MState
  stateAfterDecide : MState
  actions : List Action
  ghostCloses : List CloseReq
  saved : Option MState
  closeCalls : List CloseReq
  secureCalls : List SecureCall
  cancelCalls : List ℤ
deriving DecidableEq

/-- One iteration of PartialClosingManager.run (lines 51-96): drain the
registration queue, clean up closed trades and ghosts, decide on actions,
save the state if anything changed, then execute the scheduled actions. -/
def runIteration (env : Env) (settings : Settings) (handlers : List ℤ)
    (queue : List RegTask) (positions : List (Position × ℤ))
    (orders : List (Order × ℤ)) (st : MState) : IterResult :=
  let r1 := processRegistrationQueue queue st
  let r2 := cleanupClosedTrades handlers positions orders r1.1
  let r3 := decideOnPositionActions env settings handlers positions r2.1
  let changed := r1.2 || r2.2.1 || r3.2.1
  let st3 := r3.2.2
  let r4 := applyActions env handlers positions orders r3.1 ⟨st3, [], [], [], []⟩
  { state := r4.st
    stateAfterDecide := st3
    actions := r3.1
    ghostCloses := r2.2.2
    saved := if changed then some st3 else none
    closeCalls := r4.closes
    secureCalls := r4.secures
    cancelCalls := r4.cancels }

/-! ### Dictionary lemmas -/

theorem dictHas_iff_isSome (st : MState) (k : ℤ) :
    dictHas st k = true ↔ (dictGet st k).isSome = true := by
  induction st with
  | nil => simp [dictHas, dictGet]
  | cons p rest ih =>
    by_cases h : p.1 = k
    · simp [dictHas, dictGet, h]
    · simp [dictHas, dictGet, h, ih]

theorem dictGet_mapSet_self (st : MState) (k : ℤ) (v : TicketInfo)
    (h : (dictGet st k).isSome = true) :
    dictGet (st.map (fun p => if p.1 = k then (k, v) else p)) k = some v := by
  induction st with
  | nil => simp [dictGet] at h
  | cons p rest ih =>
    by_cases hp : p.1 = k
    · simp [dictGet, hp]
    · simp only [dictGet, hp, if_false] at h
      simpa [dictGet, hp] using ih h

theorem dictGet_append_single (st : MState) (k : ℤ) (v : TicketInfo)
    (h : dictGet st k = none) :
    dictGet (st ++ [(k, v)]) k = some v := by
  induction st with
  | nil => simp [dictGet]
  | cons p rest ih =>
    by_cases hp : p.1 = k
    · simp [dictGet, hp] at h
    · simp only [dictGet, hp, if_false] at h
      simpa [dictGet, hp] using ih h

theorem dictHas_false_get (st : MState) (k : ℤ) (h : ¬ dictHas st k = true) :
    dictGet st k = none := by
  rw [dictHas_iff_isSome] at h
  cases hg : dictGet st k with
  | none => rfl
  | some v => rw [hg] at h; simp at h

theorem dictGet_dictSet_self (st : MState) (k : ℤ) (v : TicketInfo) :
    dictGet (dictSet st k v) k = some v := by
  unfold dictSet
  split
  · rename_i h
    exact dictGet_mapSet_self st k v ((dictHas_iff_isSome st k).mp h)
  · rename_i h
    exact dictGet_append_single st k v (dictHas_false_get st k h)

theorem dictGet_mapSet_ne (st : MState) (k t : ℤ) (v : TicketInfo) (h : k ≠ t) :
    dictGet (st.map (fun p => if p.1 = k then (k, v) else p)) t = dictGet st t := by
  induction st with
  | nil => rfl
  | cons p rest ih =>
    by_cases hpk : p.1 = k
    · have hpt : ¬ p.1 = t := fun he => h (hpk ▸ he)
      simp [dictGet, hpk, hpt, h, ih]
    · by_cases hpt : p.1 = t
      · have htk : ¬ t = k := fun he => hpk (hpt.trans he)
        simp [dictGet, hpk, hpt, htk, ih]
      · simp [dictGet, hpk, hpt, ih]

theorem dictGet_append_ne (st : MState) (k t : ℤ) (v : TicketInfo) (h : k ≠ t) :
    dictGet (st ++ [(k, v)]) t = dictGet st t := by
  induction st with
  | nil => simp [dictGet, h]
  | cons p rest ih =>
    by_cases hpt : p.1 = t <;> simp [dictGet, hpt, ih]

theorem dictGet_dictSet_ne (st : MState) (k t : ℤ) (v : TicketInfo) (h : k ≠ t) :
    dictGet (dictSet st k v) t = dictGet st t := by
  unfold dictSet
  split
  · exact dictGet_mapSet_ne st k t v h
  · exact dictGet_append_ne st k t v h

theorem dictGet_dictModify (st : MState) (k t : ℤ) (f : TicketInfo → TicketInfo) :
    dictGet (dictModify st k f) t =
      if t = k then (dictGet st t).map f else dictGet st t := by
  induction st with
  | nil => simp [dictModify, dictGet]
  | cons p rest ih =>
    simp only [dictModify, List.map_cons] at ih ⊢
    by_cases hpk : p.1 = k
    · by_cases hpt : p.1 = t
      · have htk : t = k := hpt ▸ hpk
        simp [dictGet, hpk, hpt, htk]
      · have htk : ¬ t = k := fun he => hpt (hpk.trans he.symm)
        have hkt : ¬ k = t := fun he => htk he.symm
        simp [dictGet, hpk, hpt, htk, hkt, ih]
    · by_cases hpt : p.1 = t
      · have htk : ¬ t = k := fun he => hpk (hpt.trans he)
        simp [dictGet, hpk, hpt, htk]
      · simp [dictGet, hpk, hpt, ih]

/-- Looking a key up after filtering by a predicate on keys. -/
theorem dictGet_filter_keyPred (st : MState) (q : ℤ → Bool) (t : ℤ) :
    dictGet (st.filter (fun p => q p.1)) t =
      if q t then dictGet st t else none := by
  induction st with
  | nil => simp [dictGet]
  | cons p rest ih =>
    by_cases hpt : p.1 = t
    · subst hpt
      by_cases hq : q p.1
      · simp [List.filter, hq, dictGet, ih]
      · simp [List.filter, hq, dictGet, ih]
    · by_cases hq : q p.1
      · simp [List.filter, hq, dictGet, hpt, ih]
      · simp [List.filter, hq, dictGet, hpt, ih]

/-! ### Registration queue lemmas -/

theorem processQueue_get_ne (queue : List RegTask) (st : MState) (t : ℤ)
    (hq : ∀ task ∈ queue, task.ticket ≠ t) :
    dictGet (processRegistrationQueue queue st).1 t = dictGet st t := by
  induction queue generalizing st with
  | nil => rfl
  | cons task rest ih =>
    have h1 : task.ticket ≠ t := hq task (List.mem_cons_self task rest)
    have h2 : ∀ x ∈ rest, x.ticket ≠ t := fun x hx => hq x (List.mem_cons_of_mem _ hx)
    simp only [processRegistrationQueue]
    rw [ih _ h2, dictGet_dictSet_ne _ _ _ _ h1]

theorem processQueue_get_isSome (queue : List RegTask) (st : MState) (t : ℤ)
    (h : (dictGet st t).isSome = true) :
    (dictGet (processRegistrationQueue queue st).1 t).isSome = true := by
  induction queue generalizing st with
  | nil => exact h
  | cons task rest ih =>
    simp only [processRegistrationQueue]
    refine ih _ ?_
    by_cases he : task.ticket = t
    · subst he; rw [dictGet_dictSet_self]; rfl
    · rw [dictGet_dictSet_ne _ _ _ _ he]; exact h

theorem processQueue_get_mem (queue : List RegTask) (st : MState) (task : RegTask)
    (h : task ∈ queue) :
    (dictGet (processRegistrationQueue queue st).1 task.ticket).isSome = true := by
  induction queue generalizing st with
  | nil => cases h
  | cons task0 rest ih =>
    simp only [processRegistrationQueue]
    rcases List.mem_cons.mp h with he | hm
    · subst he
      exact processQueue_get_isSome rest _ _ (by rw [dictGet_dictSet_self]; rfl)
    · exact ih _ hm

/-! ### Handler and cleanup lemmas -/

theorem findHandler_of_mem (handlers : List ℤ) (login : ℤ) (h : login ∈ handlers) :
    findHandlerByLogin handlers login = some login := by
  induction handlers with
  | nil => cases h
  | cons h0 rest ih =>
    rcases List.mem_cons.mp h with he | hm
    · subst he; simp [findHandlerByLogin, List.find?]
    · unfold findHandlerByLogin List.find?
      by_cases he : h0 == login
      · have : h0 = login := by simpa using he
        subst this; simp
      · simp only [he]
        exact ih hm

/-- A snapshot position that is not managed and whose login has a handler
contributes its full-volume close to the ghost-close list. -/
theorem ghost_mem (handlers : List ℤ) (st : MState)
    (positions : List (Position × ℤ)) (pos : Position) (login : ℤ)
    (hmem : (pos, login) ∈ positions)
    (hno : ¬ dictHas st pos.ticket = true)
    (hh : login ∈ handlers) :
    closeFullReq pos login ∈ ghostCloseCalls handlers st positions := by
  induction positions with
  | nil => cases hmem
  | cons pl rest ih =>
    match pl with
    | (pos0, login0) =>
      rcases List.mem_cons.mp hmem with he | hm
      · rw [show pos0 = pos from congrArg Prod.fst he.symm,
          show login0 = login from congrArg Prod.snd he.symm]
        simp only [ghostCloseCalls, if_neg hno, findHandler_of_mem handlers login hh]
        exact List.mem_append_left _ (List.mem_singleton.mpr rfl)
      · exact List.mem_append_right _ (ih hm)

theorem cleanup_get (handlers : List ℤ) (positions : List (Position × ℤ))
    (orders : List (Order × ℤ)) (st : MState) (t : ℤ) :
    dictGet (cleanupClosedTrades handlers positions orders st).1 t =
      if (activeTickets positions orders).contains t then dictGet st t else none := by
  unfold cleanupClosedTrades
  exact dictGet_filter_keyPred st (fun k => (activeTickets positions orders).contains k) t

/-! ### Decision-step lemmas -/

theorem closed_append_nil (o : Option TicketInfo) :
    o.map (fun i => { i with closed_tps := i.closed_tps ++ ([] : List ℤ) }) = o := by
  cases o <;> simp

/-- Updating one record with an appended closed_tps list is, seen from any
key, an append-only transformation. -/
theorem dictSet_closed_get (st : MState) (k t : ℤ) (info : TicketInfo) (j : ℤ)
    (hg : dictGet st k = some info) :
    ∃ suf : List ℤ,
      dictGet (dictSet st k { info with closed_tps := info.closed_tps ++ [j] }) t =
        (dictGet st t).map (fun i => { i with closed_tps := i.closed_tps ++ suf }) := by
  by_cases he : t = k
  · subst he
    refine ⟨[j], ?_⟩
    rw [hg, dictGet_dictSet_self]
    rfl
  · refine ⟨[], ?_⟩
    rw [closed_append_nil]
    exact dictGet_dictSet_ne _ _ _ _ (fun h => he h.symm)

/-- One decision step only ever appends to the closed_tps list of a record
(and touches no other field and no other key). -/
theorem decideStep_get (env : Env) (settings : Settings) (handlers : List ℤ)
    (acc : DecideAcc) (pl : Position × ℤ) (t : ℤ) :
    ∃ suf : List ℤ, dictGet (decideStep env settings handlers acc pl).st t =
      (dictGet acc.st t).map (fun i => { i with closed_tps := i.closed_tps ++ suf }) := by
  obtain ⟨pos, login⟩ := pl
  simp only [decideStep]
  split
  · exact ⟨[], (closed_append_nil _).symm⟩
  · rename_i pos_info hg
    split
    · exact ⟨[], (closed_append_nil _).symm⟩
    · split
      · exact ⟨[], (closed_append_nil _).symm⟩
      · split
        · exact ⟨[], (closed_append_nil _).symm⟩
        · split
          · exact ⟨[], (closed_append_nil _).symm⟩
          · split
            · exact dictSet_closed_get acc.st pos.ticket t pos_info _ hg
            · exact dictSet_closed_get acc.st pos.ticket t pos_info _ hg

/-- The decision loop only ever appends to closed_tps lists. -/
theorem decideList_get (env : Env) (settings : Settings) (handlers : List ℤ)
    (positions : List (Position × ℤ)) (acc : DecideAcc) (t : ℤ) :
    ∃ suf : List ℤ,
      dictGet (decideList env settings handlers positions acc).st t =
        (dictGet acc.st t).map (fun i => { i with closed_tps := i.closed_tps ++ suf }) := by
  induction positions generalizing acc with
  | nil => exact ⟨[], (closed_append_nil _).symm⟩
  | cons pl rest ih =>
    obtain ⟨s1, h1⟩ := decideStep_get env settings handlers acc pl t
    obtain ⟨s2, h2⟩ := ih (decideStep env settings handlers acc pl)
    refine ⟨s1 ++ s2, ?_⟩
    rw [decideList, h2, h1]
    cases dictGet acc.st t <;> simp

/-- The decision loop only appends to the scheduled action list. -/
theorem decideList_actions_mono (env : Env) (settings : Settings)
    (handlers : List ℤ) (positions : List (Position × ℤ)) (acc : DecideAcc) :
    ∃ ext : List Action,
      (decideList env settings handlers positions acc).actions = acc.actions ++ ext := by
  induction positions generalizing acc with
  | nil => exact ⟨[], by simp [decideList]⟩
  | cons pl rest ih =>
    obtain ⟨e2, h2⟩ := ih (decideStep env settings handlers acc pl)
    have hstep : ∃ e1 : List Action,
        (decideStep env settings handlers acc pl).actions = acc.actions ++ e1 := by
      obtain ⟨pos, login⟩ := pl
      simp only [decideStep]
      split
      · exact ⟨[], by simp⟩
      · split
        · exact ⟨[], by simp⟩
        · split
          · exact ⟨[], by simp⟩
          · split
            · exact ⟨[], by simp⟩
            · split
              · exact ⟨[], by simp⟩
              · split
                · exact ⟨_, rfl⟩
                · exact ⟨_, rfl⟩
    obtain ⟨e1, h1⟩ := hstep
    refine ⟨e1 ++ e2, ?_⟩
    rw [decideList, h2, h1, List.append_assoc]

/-- A Boolean no-hit test for one snapshot position against a state: every
guard of the decision body either fails or finds no hit target. -/
def noHitFor (env : Env) (settings : Settings) (st : MState) (pl : Position × ℤ) :
    Bool :=
  match dictGet st pl.1.ticket, env.symbolMeta pl.1.symbol, env.tick pl.1.symbol with
  | some info, some _, some tk =>
    (firstHitTP env settings pl.1.symbol info.closed_tps pl.1.ptype
      (if pl.1.ptype = ORDER_TYPE_SELL then tk.bid else tk.ask)
      info.signal.tps 1).isNone
  | _, _, _ => true

theorem decideStep_id (env : Env) (settings : Settings) (handlers : List ℤ)
    (acc : DecideAcc) (pl : Position × ℤ)
    (h : noHitFor env settings acc.st pl = true) :
    decideStep env settings handlers acc pl = acc := by
  obtain ⟨pos, login⟩ := pl
  unfold noHitFor at h
  simp only [decideStep]
  split
  · rfl
  · rename_i pos_info hg
    split
    · rfl
    · split
      · rfl
      · rename_i m0 hm
        split
        · rfl
        · rename_i tk ht
          simp only [hg, hm, ht, Option.isNone_iff_eq_none] at h
          split
          · rfl
          · rename_i tp_num hf
            rw [h] at hf
            cases hf

theorem decideList_id (env : Env) (settings : Settings) (handlers : List ℤ)
    (positions : List (Position × ℤ)) (acc : DecideAcc)
    (h : ∀ pl ∈ positions, noHitFor env settings acc.st pl = true) :
    decideList env settings handlers positions acc = acc := by
  induction positions with
  | nil => rfl
  | cons pl rest ih =>
    rw [decideList, decideStep_id env settings handlers acc pl
      (h pl (List.mem_cons_self pl rest))]
    exact ih (fun x hx => h x (List.mem_cons_of_mem _ hx))

/-! ### Apply-phase lemmas -/

/-- How the record of a fixed ticket can evolve during the apply phase:
either untouched, or its is_secured flag is set, which requires the venue
to have confirmed the stop-loss modification for that ticket. -/
def SecEvo (env : Env) (t : ℤ) (a b : Option TicketInfo) : Prop :=
  b = a ∨ (env.secureOk t = true ∧
    ∃ i, a = some i ∧ b = some { i with is_secured := true })

theorem SecEvo.refl (env : Env) (t : ℤ) (a : Option TicketInfo) : SecEvo env t a a :=
  Or.inl (Eq.refl a)

theorem SecEvo.trans (env : Env) (t : ℤ) (a b c : Option TicketInfo)
    (h1 : SecEvo env t a b) (h2 : SecEvo env t b c) : SecEvo env t a c := by
  rcases h1 with h1 | ⟨hok, i, ha, hb⟩
  · rcases h2 with h2 | ⟨hok, i, hb, hc⟩
    · exact Or.inl (h2.trans h1)
    · exact Or.inr ⟨hok, i, h1 ▸ hb, hc⟩
  · rcases h2 with h2 | ⟨hok2, i2, hb2, hc2⟩
    · exact Or.inr ⟨hok, i, ha, h2.trans hb⟩
    · refine Or.inr ⟨hok, i, ha, ?_⟩
      rw [hb] at hb2
      cases hb2
      exact hc2

theorem securePosition_evo (env : Env) (pos : Position) (st : MState) (t : ℤ) :
    SecEvo env t (dictGet st t) (dictGet (securePosition env pos st).1 t) := by
  unfold securePosition
  by_cases hok : env.secureOk pos.ticket
  · simp only [if_pos hok]
    rw [dictGet_dictModify]
    by_cases he : t = pos.ticket
    · rw [if_pos he]
      cases hg : dictGet st t with
      | none => exact Or.inl rfl
      | some i => exact Or.inr ⟨by rw [he]; exact hok, i, rfl, rfl⟩
    · rw [if_neg he]
      exact SecEvo.refl env t _
  · simp only [if_neg hok]
    exact SecEvo.refl env t _

theorem secureTradeGroup_evo (env : Env) (handlers : List ℤ) (g : String)
    (positions : List (Position × ℤ)) (st : MState) (t : ℤ) :
    SecEvo env t (dictGet st t)
      (dictGet (secureTradeGroup env handlers g positions st).1 t) := by
  induction positions generalizing st with
  | nil => exact SecEvo.refl env t _
  | cons pl rest ih =>
    obtain ⟨pos, login⟩ := pl
    simp only [secureTradeGroup]
    split
    · split
      · split
        · exact SecEvo.trans env t _ _ _ (securePosition_evo env pos st t) (ih _)
        · exact ih st
      · exact ih st
    · exact ih st

theorem applyActions_evo (env : Env) (handlers : List ℤ)
    (positions : List (Position × ℤ)) (orders : List (Order × ℤ))
    (acts : List Action) (acc : ApplyAcc) (t : ℤ) :
    SecEvo env t (dictGet acc.st t)
      (dictGet (applyActions env handlers positions orders acts acc).st t) := by
  induction acts generalizing acc with
  | nil => exact SecEvo.refl env t _
  | cons a rest ih =>
    cases a with
    | close pos volume login =>
      simp only [applyActions]
      exact ih _
    | secure_group g =>
      simp only [applyActions]
      split
      · exact ih acc
      · exact SecEvo.trans env t _ _ _
          (secureTradeGroup_evo env handlers g positions acc.st t) (ih _)

/-- The full state evolution of one iteration, seen from one ticket that
the registration queue does not touch: lookup after the in-lock phase, and
the apply-phase evolution to the final state. -/
theorem runIteration_get (env : Env) (settings : Settings) (handlers : List ℤ)
    (queue : List RegTask) (positions : List (Position × ℤ))
    (orders : List (Order × ℤ)) (st : MState) (t : ℤ)
    (hq : ∀ task ∈ queue, task.ticket ≠ t) :
    (∃ suf : List ℤ,
      dictGet (runIteration env settings handlers queue positions orders st).stateAfterDecide t =
        (if (activeTickets positions orders).contains t then dictGet st t else none).map
          (fun i => { i with closed_tps := i.closed_tps ++ suf })) ∧
    SecEvo env t
      (dictGet (runIteration env settings handlers queue positions orders st).stateAfterDecide t)
      (dictGet (runIteration env settings handlers queue positions orders st).state t) := by
  constructor
  · have e1 : dictGet (processRegistrationQueue queue st).1 t = dictGet st t :=
      processQueue_get_ne queue st t hq
    have e2 := cleanup_get handlers positions orders (processRegistrationQueue queue st).1 t
    rw [e1] at e2
    have e3 := decideList_get env settings handlers positions
      ⟨[], false,
        (cleanupClosedTrades handlers positions orders (processRegistrationQueue queue st).1).1,
        initialSecuredGroups
          (cleanupClosedTrades handlers positions orders (processRegistrationQueue queue st).1).1⟩ t
    obtain ⟨suf, hsuf⟩ := e3
    exact ⟨suf, by rw [← e2]; exact hsuf⟩
  · exact applyActions_evo env handlers positions orders _ _ t

/-! ### Claim C2: ghosts are force-closed in the same iteration -/

/-- C2: in every reconciliation iteration, every snapshot position whose
ticket is not a key of the managed state after the queue is drained, and
whose login has a handler (always the case for positions of the snapshot,
which is built from the handler list), gets a full-volume close call
(closeFullReq carries position.volume) issued within that iteration. -/
theorem C2_ghost_closed (env : Env) (settings : Settings) (handlers : List ℤ)
    (queue : List RegTask) (positions : List (Position × ℤ))
    (orders : List (Order × ℤ)) (st : MState) (pos : Position) (login : ℤ)
    (hmem : (pos, login) ∈ positions)
    (hghost : ¬ dictHas (processRegistrationQueue queue st).1 pos.ticket = true)
    (hlogin : login ∈ handlers) :
    closeFullReq pos login ∈
      (runIteration env settings handlers queue positions orders st).ghostCloses := by
  have he : (runIteration env settings handlers queue positions orders st).ghostCloses =
      ghostCloseCalls handlers (processRegistrationQueue queue st).1 positions := rfl
  rw [he]
  exact ghost_mem handlers _ positions pos login hmem hghost hlogin

/-- C2 (witness): a concrete unmanaged position is ghost-closed. -/
theorem C2_ghost_closed_witness :
    closeFullReq ⟨9, "G", 2, 0, 50, 0⟩ 3 ∈
      (runIteration ⟨fun _ => none, fun _ => none, fun _ => false⟩ ⟨0⟩ [3] []
        [(⟨9, "G", 2, 0, 50, 0⟩, 3)] [] []).ghostCloses :=
  C2_ghost_closed ⟨fun _ => none, fun _ => none, fun _ => false⟩ ⟨0⟩ [3] []
    [(⟨9, "G", 2, 0, 50, 0⟩, 3)] [] [] ⟨9, "G", 2, 0, 50, 0⟩ 3
    (List.mem_singleton.mpr rfl) (by decide) (by decide)

/-! ### Claim C4: when an iteration is a no-op -/

theorem ghostCloseCalls_nil (handlers : List ℤ) (st : MState)
    (positions : List (Position × ℤ))
    (h : ∀ pl ∈ positions, dictHas st pl.1.ticket = true) :
    ghostCloseCalls handlers st positions = [] := by
  induction positions with
  | nil => rfl
  | cons pl rest ih =>
    obtain ⟨pos, login⟩ := pl
    have h0 : dictHas st pos.ticket = true := h (pos, login) (List.mem_cons_self _ _)
    simp only [ghostCloseCalls, h0, if_true, List.nil_append]
    exact ih (fun x hx => h x (List.mem_cons_of_mem _ hx))

theorem cleanup_noop (handlers : List ℤ) (positions : List (Position × ℤ))
    (orders : List (Order × ℤ)) (st : MState)
    (ha : ∀ p ∈ st, (activeTickets positions orders).contains p.1 = true)
    (hg : ∀ pl ∈ positions, dictHas st pl.1.ticket = true) :
    cleanupClosedTrades handlers positions orders st = (st, false, []) := by
  simp only [cleanupClosedTrades]
  rw [ghostCloseCalls_nil handlers st positions hg]
  rw [List.filter_eq_self.mpr ha]
  have hany : (st.any fun p => !(activeTickets positions orders).contains p.1) = false := by
    rw [List.any_eq_false]
    intro p hp
    rw [ha p hp]
    simp
  rw [hany]

theorem decide_noop (env : Env) (settings : Settings) (handlers : List ℤ)
    (positions : List (Position × ℤ)) (st : MState)
    (hh : ∀ pl ∈ positions, noHitFor env settings st pl = true) :
    decideOnPositionActions env settings handlers positions st = ([], false, st) := by
  unfold decideOnPositionActions
  rw [decideList_id env settings handlers positions ⟨[], false, st, initialSecuredGroups st⟩ hh]

theorem runIteration_noop (env : Env) (settings : Settings) (handlers : List ℤ)
    (positions : List (Position × ℤ)) (orders : List (Order × ℤ)) (st : MState)
    (h2 : cleanupClosedTrades handlers positions orders st = (st, false, []))
    (h3 : decideOnPositionActions env settings handlers positions st = ([], false, st)) :
    runIteration env settings handlers [] positions orders st =
      ⟨st, st, [], [], none, [], [], []⟩ := by
  simp only [runIteration, processRegistrationQueue]
  rw [h2]
  simp only []
  rw [h3]
  rfl

/-- C4 (counterexample): on a managed state holding ticket 1 while the venue
snapshot is empty and no price moved (no prices exist at all) and the queue
is empty, the iteration prunes the ticket: the state is mutated, refuting
the claim for arbitrary managed states. -/
theorem C4_counterexample :
    (runIteration ⟨fun _ => none, fun _ => none, fun _ => false⟩ ⟨0⟩ [] [] [] []
        [(1, ⟨0, ⟨"", [], 0⟩, 0, [], false, "", 0⟩)]).state ≠
      [(1, ⟨0, ⟨"", [], 0⟩, 0, [], false, "", 0⟩)] := by
  have hs : (runIteration ⟨fun _ => none, fun _ => none, fun _ => false⟩ ⟨0⟩ [] [] [] []
      [(1, ⟨0, ⟨"", [], 0⟩, 0, [], false, "", 0⟩)]).state = [] := rfl
  rw [hs]
  simp

/-- C4 (amended): an iteration with an empty registration queue is a
complete no-op (same state, no actions, no ghost closes, no venue calls, no
save) on every managed state that is consistent with the snapshot: every
managed ticket is still active, every snapshot position is managed, and no
managed open position has an untriggered take-profit whose hit test passes
at the current prices. -/
theorem C4_amended (env : Env) (settings : Settings) (handlers : List ℤ)
    (positions : List (Position × ℤ)) (orders : List (Order × ℤ)) (st : MState)
    (ha : ∀ p ∈ st, (activeTickets positions orders).contains p.1 = true)
    (hg : ∀ pl ∈ positions, dictHas st pl.1.ticket = true)
    (hh : ∀ pl ∈ positions, noHitFor env settings st pl = true) :
    runIteration env settings handlers [] positions orders st =
      ⟨st, st, [], [], none, [], [], []⟩ :=
  runIteration_noop env settings handlers positions orders st
    (cleanup_noop handlers positions orders st ha hg)
    (decide_noop env settings handlers positions st hh)

/-- C4 (witness): the amended no-op statement on a concrete managed ticket
whose only take-profit is already consumed. -/
theorem C4_amended_witness :
    runIteration
        ⟨fun s => if s = "X" then some ⟨5, 1/100000⟩ else none,
         fun s => if s = "X" then some ⟨50, 50⟩ else none,
         fun _ => false⟩
        ⟨0⟩ [7] [] [(⟨5, "X", 1, 0, 90, 0⟩, 7)] []
        [(5, ⟨7, ⟨"X", [100], 1⟩, 1, [1], false, "g", 0⟩)] =
      ⟨[(5, ⟨7, ⟨"X", [100], 1⟩, 1, [1], false, "g", 0⟩)],
       [(5, ⟨7, ⟨"X", [100], 1⟩, 1, [1], false, "g", 0⟩)], [], [], none, [], [], []⟩ :=
  C4_amended _ ⟨0⟩ [7] [(⟨5, "X", 1, 0, 90, 0⟩, 7)] []
    [(5, ⟨7, ⟨"X", [100], 1⟩, 1, [1], false, "g", 0⟩)]
    (by decide) (by decide) (by decide)

/-! ### Claims C10 and C5: key set after pruning, secured-flag evolution -/

theorem SecEvo_isSome (env : Env) (t : ℤ) (a b : Option TicketInfo)
    (h : SecEvo env t a b) (hb : b.isSome = true) : a.isSome = true := by
  rcases h with h | ⟨hok, i, ha, hb2⟩
  · rw [← h]; exact hb
  · rw [ha]; rfl

theorem SecEvo_none (env : Env) (t : ℤ) (a b : Option TicketInfo)
    (h : SecEvo env t a b) (ha : a = none) : b = none := by
  rcases h with h | ⟨hok, i, ha2, hb⟩
  · rw [h, ha]
  · rw [ha] at ha2; cases ha2

theorem runIteration_evo (env : Env) (settings : Settings) (handlers : List ℤ)
    (queue : List RegTask) (positions : List (Position × ℤ))
    (orders : List (Order × ℤ)) (st : MState) (t : ℤ) :
    SecEvo env t
      (dictGet (runIteration env settings handlers queue positions orders st).stateAfterDecide t)
      (dictGet (runIteration env settings handlers queue positions orders st).state t) :=
  applyActions_evo env handlers positions orders _ _ t

theorem runIteration_afterDecide_get (env : Env) (settings : Settings)
    (handlers : List ℤ) (queue : List RegTask) (positions : List (Position × ℤ))
    (orders : List (Order × ℤ)) (st : MState) (t : ℤ) :
    ∃ suf : List ℤ,
      dictGet (runIteration env settings handlers queue positions orders st).stateAfterDecide t =
        (dictGet (cleanupClosedTrades handlers positions orders
            (processRegistrationQueue queue st).1).1 t).map
          (fun i => { i with closed_tps := i.closed_tps ++ suf }) :=
  decideList_get env settings handlers positions _ t

/-- C10: after the prune step of an iteration, every ticket still managed is
active in that iteration's start-of-iteration snapshot; this carries over to
the end-of-iteration state; and a registration drained in the same iteration
whose ticket is absent from the snapshot is inserted by the queue drain and
gone from the final state of the very same iteration. -/
theorem C10_pruned_to_snapshot (env : Env) (settings : Settings) (handlers : List ℤ)
    (queue : List RegTask) (positions : List (Position × ℤ))
    (orders : List (Order × ℤ)) (st : MState) :
    (∀ t, (dictGet (cleanupClosedTrades handlers positions orders
        (processRegistrationQueue queue st).1).1 t).isSome = true →
      (activeTickets positions orders).contains t = true) ∧
    (∀ t, (dictGet (runIteration env settings handlers queue positions orders st).state
        t).isSome = true →
      (activeTickets positions orders).contains t = true) ∧
    (∀ task ∈ queue, (activeTickets positions orders).contains task.ticket = false →
      (dictGet (processRegistrationQueue queue st).1 task.ticket).isSome = true ∧
      dictGet (runIteration env settings handlers queue positions orders st).state
        task.ticket = none) := by
  have key : ∀ t, (activeTickets positions orders).contains t = false →
      dictGet (runIteration env settings handlers queue positions orders st).state t = none := by
    intro t hc
    have h2 : dictGet (cleanupClosedTrades handlers positions orders
        (processRegistrationQueue queue st).1).1 t = none := by
      rw [cleanup_get, hc]
      simp
    obtain ⟨suf, hsuf⟩ := runIteration_afterDecide_get env settings handlers queue
      positions orders st t
    rw [h2] at hsuf
    exact SecEvo_none env t _ _ (runIteration_evo env settings handlers queue
      positions orders st t) hsuf
  refine ⟨?_, ?_, ?_⟩
  · intro t hsome
    by_contra hc
    have hc2 : (activeTickets positions orders).contains t = false :=
      Bool.not_eq_true _ ▸ (by simpa using hc)
    rw [cleanup_get, hc2] at hsome
    simp at hsome
  · intro t hsome
    by_contra hc
    have hc2 : (activeTickets positions orders).contains t = false := by
      simpa using hc
    rw [key t hc2] at hsome
    cases hsome
  · intro task hmem hc
    exact ⟨processQueue_get_mem queue st task hmem, key task.ticket hc⟩

/-- C10 (witness): a registration for a ticket the venue does not report is
inserted and pruned within one iteration. -/
theorem C10_witness :
    (dictGet (processRegistrationQueue [⟨6, 7, ⟨"X", [100], 1⟩, 1, "g"⟩] []).1 6).isSome
      = true ∧
    dictGet (runIteration ⟨fun _ => none, fun _ => none, fun _ => false⟩ ⟨0⟩ [7]
      [⟨6, 7, ⟨"X", [100], 1⟩, 1, "g"⟩] [] [] []).state 6 = none :=
  (C10_pruned_to_snapshot ⟨fun _ => none, fun _ => none, fun _ => false⟩ ⟨0⟩ [7]
    [⟨6, 7, ⟨"X", [100], 1⟩, 1, "g"⟩] [] [] []).2.2
    ⟨6, 7, ⟨"X", [100], 1⟩, 1, "g"⟩ (List.mem_singleton.mpr rfl) (by decide)

/-- C5: across one reconciliation iteration, for a ticket the registration
queue does not re-register, the is_secured flag never falls from true back
to false, and it rises from false to true only when the venue confirms the
stop-loss modification for that ticket (env.secureOk).  Iterating this
per-step fact along any run gives the at-most-once false-to-true
transition of the claim. -/
theorem C5_secured_flag (env : Env) (settings : Settings) (handlers : List ℤ)
    (queue : List RegTask) (positions : List (Position × ℤ))
    (orders : List (Order × ℤ)) (st : MState) (t : ℤ) (info info2 : TicketInfo)
    (hq : ∀ task ∈ queue, task.ticket ≠ t)
    (h1 : dictGet st t = some info)
    (h2 : dictGet (runIteration env settings handlers queue positions orders st).state t
      = some info2) :
    (info.is_secured = true → info2.is_secured = true) ∧
    (info.is_secured = false → info2.is_secured = true → env.secureOk t = true) := by
  obtain ⟨suf, hsuf⟩ := runIteration_afterDecide_get env settings handlers queue
    positions orders st t
  have hevo := runIteration_evo env settings handlers queue positions orders st t
  rw [cleanup_get, processQueue_get_ne queue st t hq, h1] at hsuf
  by_cases hc : (activeTickets positions orders).contains t
  · rw [if_pos hc] at hsuf
    rw [hsuf, h2] at hevo
    rcases hevo with he | ⟨hok, i, ha, hb⟩
    · have h3 : info2 = { info with closed_tps := info.closed_tps ++ suf } :=
        Option.some.inj he
      constructor
      · intro hs; rw [h3]; exact hs
      · intro hs1 hs2
        rw [h3] at hs2
        rw [hs1] at hs2
        cases hs2
    · have h4 : i = { info with closed_tps := info.closed_tps ++ suf } :=
        (Option.some.inj ha).symm
      have h5 : info2 = { i with is_secured := true } := Option.some.inj hb
      exact ⟨fun _ => by rw [h5], fun _ _ => hok⟩
  · rw [if_neg hc] at hsuf
    have hsuf2 : dictGet (runIteration env settings handlers queue positions orders
        st).stateAfterDecide t = none := hsuf.trans rfl
    rw [SecEvo_none env t _ _ hevo hsuf2] at h2
    cases h2

/-- C5 (witness): an already-secured ticket stays secured across an
iteration in which its position is still open. -/
theorem C5_witness :
    ((⟨7, ⟨"X", [100], 1⟩, 1, [], true, "g", 0⟩ : TicketInfo).is_secured = true →
      (⟨7, ⟨"X", [100], 1⟩, 1, [], true, "g", 0⟩ : TicketInfo).is_secured = true) ∧
    ((⟨7, ⟨"X", [100], 1⟩, 1, [], true, "g", 0⟩ : TicketInfo).is_secured = false →
      (⟨7, ⟨"X", [100], 1⟩, 1, [], true, "g", 0⟩ : TicketInfo).is_secured = true →
      (⟨fun _ => none, fun _ => none, fun _ => false⟩ : Env).secureOk 5 = true) :=
  C5_secured_flag ⟨fun _ => none, fun _ => none, fun _ => false⟩ ⟨0⟩ [7] []
    [(⟨5, "X", 1, 0, 90, 0⟩, 7)] [] [(5, ⟨7, ⟨"X", [100], 1⟩, 1, [], true, "g", 0⟩)] 5
    ⟨7, ⟨"X", [100], 1⟩, 1, [], true, "g", 0⟩ ⟨7, ⟨"X", [100], 1⟩, 1, [], true, "g", 0⟩
    (by simp) (by decide) (by decide)

/-! ### Claim C3: failed securing is never re-attempted -/

theorem bufferAmount_zero (pip : Option ℚ) (n : ℤ) :
    bufferAmount ⟨0⟩ pip n = 0 := by
  unfold bufferAmount
  match pip with
  | none => rfl
  | some p =>
    simp only []
    split
    · simp
    · rfl

/-- C3 (code versus claim, evaluated at the failing input): managed ticket 5
(group g, targets [100, 200], entry 90) with snapshot price 150 and a venue
that rejects every stop-loss modification.  The first iteration consumes
target 1, issues the securing call, the venue refuses, and is_secured stays
false; the next iteration under identical conditions schedules no action at
all and issues no securing call, so the securing is never re-attempted,
contrary to the claim (and to the code's own "Will retry" log line). -/
theorem C3_secure_not_retried :
    (runIteration
        ⟨fun s => if s = "X" then some ⟨5, 1/100000⟩ else none,
         fun s => if s = "X" then some ⟨150, 150⟩ else none,
         fun _ => false⟩
        ⟨0⟩ [7] [] [(⟨5, "X", 1, 0, 90, 0⟩, 7)] []
        [(5, ⟨7, ⟨"X", [100, 200], 2⟩, 1, [], false, "g", 0⟩)]).secureCalls =
      [⟨5, 90, false⟩] ∧
    (dictGet (runIteration
        ⟨fun s => if s = "X" then some ⟨5, 1/100000⟩ else none,
         fun s => if s = "X" then some ⟨150, 150⟩ else none,
         fun _ => false⟩
        ⟨0⟩ [7] [] [(⟨5, "X", 1, 0, 90, 0⟩, 7)] []
        [(5, ⟨7, ⟨"X", [100, 200], 2⟩, 1, [], false, "g", 0⟩)]).state 5).map
      TicketInfo.is_secured = some false ∧
    (runIteration
        ⟨fun s => if s = "X" then some ⟨5, 1/100000⟩ else none,
         fun s => if s = "X" then some ⟨150, 150⟩ else none,
         fun _ => false⟩
        ⟨0⟩ [7] [] [(⟨5, "X", 1, 0, 90, 0⟩, 7)] []
        (runIteration
          ⟨fun s => if s = "X" then some ⟨5, 1/100000⟩ else none,
           fun s => if s = "X" then some ⟨150, 150⟩ else none,
           fun _ => false⟩
          ⟨0⟩ [7] [] [(⟨5, "X", 1, 0, 90, 0⟩, 7)] []
          [(5, ⟨7, ⟨"X", [100, 200], 2⟩, 1, [], false, "g", 0⟩)]).state).actions = [] ∧
    (runIteration
        ⟨fun s => if s = "X" then some ⟨5, 1/100000⟩ else none,
         fun s => if s = "X" then some ⟨150, 150⟩ else none,
         fun _ => false⟩
        ⟨0⟩ [7] [] [(⟨5, "X", 1, 0, 90, 0⟩, 7)] []
        (runIteration
          ⟨fun s => if s = "X" then some ⟨5, 1/100000⟩ else none,
           fun s => if s = "X" then some ⟨150, 150⟩ else none,
           fun _ => false⟩
          ⟨0⟩ [7] [] [(⟨5, "X", 1, 0, 90, 0⟩, 7)] []
          [(5, ⟨7, ⟨"X", [100, 200], 2⟩, 1, [], false, "g", 0⟩)]).state).secureCalls = [] ∧
    (dictGet (runIteration
        ⟨fun s => if s = "X" then some ⟨5, 1/100000⟩ else none,
         fun s => if s = "X" then some ⟨150, 150⟩ else none,
         fun _ => false⟩
        ⟨0⟩ [7] [] [(⟨5, "X", 1, 0, 90, 0⟩, 7)] []
        (runIteration
          ⟨fun s => if s = "X" then some ⟨5, 1/100000⟩ else none,
           fun s => if s = "X" then some ⟨150, 150⟩ else none,
           fun _ => false⟩
          ⟨0⟩ [7] [] [(⟨5, "X", 1, 0, 90, 0⟩, 7)] []
          [(5, ⟨7, ⟨"X", [100, 200], 2⟩, 1, [], false, "g", 0⟩)]).state).state 5).map
      TicketInfo.is_secured = some false := by
  norm_num [runIteration, processRegistrationQueue, cleanupClosedTrades,
    ghostCloseCalls, dictHas, activeTickets, decideOnPositionActions, decideList,
    decideStep, dictGet, findHandlerByLogin, initialSecuredGroups, firstHitTP,
    hitCond, bufferAmount_zero, dictSet, dictModify, applyActions,
    secureTradeGroup, securePosition, cancelPendingForGroup,
    ORDER_TYPE_BUY, ORDER_TYPE_SELL]

/-! ### Claims C6 and C7: the take-profit scan -/

/-- Target number j (counting from n for the remaining level list) is
untriggered and its hit test passes. -/
def tpHitFrom (env : Env) (settings : Settings) (symbol : String) (closed : List ℤ)
    (ptype : ℤ) (price : ℚ) (tps : List ℚ) (n j : ℤ) : Prop :=
  j ∉ closed ∧ ∃ k : ℕ, n + (k : ℤ) = j ∧ ∃ tp, tps.get? k = some tp ∧
    hitCond ptype price tp
      (bufferAmount settings (get_symbol_pip_info env symbol) j) = true

/-- Target number j (1-based) is untriggered and its hit test passes. -/
def tpHit (env : Env) (settings : Settings) (symbol : String) (closed : List ℤ)
    (ptype : ℤ) (price : ℚ) (tps : List ℚ) (j : ℤ) : Prop :=
  tpHitFrom env settings symbol closed ptype price tps 1 j

theorem tpHitFrom_le (env : Env) (settings : Settings) (symbol : String)
    (closed : List ℤ) (ptype : ℤ) (price : ℚ) (tps : List ℚ) (n j : ℤ)
    (h : tpHitFrom env settings symbol closed ptype price tps n j) : n ≤ j := by
  obtain ⟨-, k, hk, -⟩ := h
  omega

theorem tpHitFrom_cons (env : Env) (settings : Settings) (symbol : String)
    (closed : List ℤ) (ptype : ℤ) (price : ℚ) (tp : ℚ) (rest : List ℚ) (n j : ℤ) :
    tpHitFrom env settings symbol closed ptype price (tp :: rest) n j ↔
      ((j = n ∧ n ∉ closed ∧ hitCond ptype price tp
          (bufferAmount settings (get_symbol_pip_info env symbol) n) = true) ∨
        tpHitFrom env settings symbol closed ptype price rest (n + 1) j) := by
  unfold tpHitFrom
  constructor
  · rintro ⟨hnc, k, hk, tp2, hget, hcond⟩
    cases k with
    | zero =>
      left
      have hj : j = n := by omega
      subst hj
      simp only [List.get?_cons_zero, Option.some.injEq] at hget
      subst hget
      exact ⟨rfl, hnc, hcond⟩
    | succ k2 =>
      right
      refine ⟨hnc, k2, by omega, tp2, ?_, hcond⟩
      simpa using hget
  · rintro (⟨hj, hnc, hcond⟩ | ⟨hnc, k, hk, tp2, hget, hcond⟩)
    · subst hj
      exact ⟨hnc, 0, by simp, tp, by simp, hcond⟩
    · exact ⟨hnc, k + 1, by push_cast; omega, tp2, by simpa using hget, hcond⟩

/-- The scanning loop returns exactly the least untriggered hit target at or
past the start number. -/
theorem firstHitTP_iff (env : Env) (settings : Settings) (symbol : String)
    (closed : List ℤ) (ptype : ℤ) (price : ℚ) (tps : List ℚ) (n j : ℤ) :
    firstHitTP env settings symbol closed ptype price tps n = some j ↔
      (tpHitFrom env settings symbol closed ptype price tps n j ∧
        ∀ i, n ≤ i → i < j →
          ¬ tpHitFrom env settings symbol closed ptype price tps n i) := by
  induction tps generalizing n with
  | nil =>
    simp [firstHitTP, tpHitFrom]
  | cons tp rest ih =>
    by_cases hcl : n ∈ closed
    · have hdeg : ∀ x, tpHitFrom env settings symbol closed ptype price (tp :: rest) n x ↔
          tpHitFrom env settings symbol closed ptype price rest (n + 1) x := by
        intro x
        rw [tpHitFrom_cons]
        constructor
        · rintro (⟨hx, hnc, -⟩ | h)
          · exact absurd hcl hnc
          · exact h
        · exact Or.inr
      rw [show firstHitTP env settings symbol closed ptype price (tp :: rest) n =
          firstHitTP env settings symbol closed ptype price rest (n + 1) from by
        rw [firstHitTP, if_pos hcl]]
      rw [ih (n + 1)]
      constructor
      · rintro ⟨hhit, hmin⟩
        refine ⟨(hdeg j).mpr hhit, fun i hni hij hP => ?_⟩
        have h2 := (hdeg i).mp hP
        exact hmin i (tpHitFrom_le env settings symbol closed ptype price rest (n + 1) i h2)
          hij h2
      · rintro ⟨hhit, hmin⟩
        refine ⟨(hdeg j).mp hhit, fun i hni hij hQ => ?_⟩
        exact hmin i (by omega) hij ((hdeg i).mpr hQ)
    · by_cases hcond : hitCond ptype price tp
          (bufferAmount settings (get_symbol_pip_info env symbol) n) = true
      · rw [show firstHitTP env settings symbol closed ptype price (tp :: rest) n = some n
            from by rw [firstHitTP, if_neg hcl, if_pos hcond]]
        constructor
        · rintro h
          have hj : j = n := (Option.some.inj h).symm
          subst hj
          refine ⟨(tpHitFrom_cons env settings symbol closed ptype price tp rest j j).mpr
            (Or.inl ⟨rfl, hcl, hcond⟩), fun i hni hij hP => by omega⟩
        · rintro ⟨hhit, hmin⟩
          have hnj : n ≤ j :=
            tpHitFrom_le env settings symbol closed ptype price (tp :: rest) n j hhit
          by_cases he : j = n
          · rw [he]
          · exfalso
            exact hmin n le_rfl (by omega)
              ((tpHitFrom_cons env settings symbol closed ptype price tp rest n n).mpr
                (Or.inl ⟨rfl, hcl, hcond⟩))
      · have hdeg : ∀ x, tpHitFrom env settings symbol closed ptype price (tp :: rest) n x ↔
            tpHitFrom env settings symbol closed ptype price rest (n + 1) x := by
          intro x
          rw [tpHitFrom_cons]
          constructor
          · rintro (⟨hx, hnc, hcd⟩ | h)
            · exact absurd hcd hcond
            · exact h
          · exact Or.inr
        rw [show firstHitTP env settings symbol closed ptype price (tp :: rest) n =
            firstHitTP env settings symbol closed ptype price rest (n + 1) from by
          rw [firstHitTP, if_neg hcl, if_neg hcond]]
        rw [ih (n + 1)]
        constructor
        · rintro ⟨hhit, hmin⟩
          refine ⟨(hdeg j).mpr hhit, fun i hni hij hP => ?_⟩
          have h2 := (hdeg i).mp hP
          exact hmin i (tpHitFrom_le env settings symbol closed ptype price rest (n + 1) i h2)
            hij h2
        · rintro ⟨hhit, hmin⟩
          refine ⟨(hdeg j).mp hhit, fun i hni hij hQ => ?_⟩
          exact hmin i (by omega) hij ((hdeg i).mpr hQ)

/-- A returned hit target is never one already consumed. -/
theorem firstHitTP_notin (env : Env) (settings : Settings) (symbol : String)
    (closed : List ℤ) (ptype : ℤ) (price : ℚ) (tps : List ℚ) (n j : ℤ)
    (h : firstHitTP env settings symbol closed ptype price tps n = some j) :
    j ∉ closed :=
  ((firstHitTP_iff env settings symbol closed ptype price tps n j).mp h).1.1

theorem decideStep_get_ne (env : Env) (settings : Settings) (handlers : List ℤ)
    (acc : DecideAcc) (pl : Position × ℤ) (t : ℤ) (hne : pl.1.ticket ≠ t) :
    dictGet (decideStep env settings handlers acc pl).st t = dictGet acc.st t := by
  obtain ⟨pos, login⟩ := pl
  simp only [decideStep]
  split
  · rfl
  · split
    · rfl
    · split
      · rfl
      · split
        · rfl
        · split
          · rfl
          · split
            · exact dictGet_dictSet_ne _ _ _ _ hne
            · exact dictGet_dictSet_ne _ _ _ _ hne

theorem decideList_get_notin (env : Env) (settings : Settings) (handlers : List ℤ)
    (positions : List (Position × ℤ)) (acc : DecideAcc) (t : ℤ)
    (h : ∀ pl ∈ positions, pl.1.ticket ≠ t) :
    dictGet (decideList env settings handlers positions acc).st t = dictGet acc.st t := by
  induction positions generalizing acc with
  | nil => rfl
  | cons pl rest ih =>
    rw [decideList, ih _ (fun x hx => h x (List.mem_cons_of_mem _ hx)),
      decideStep_get_ne env settings handlers acc pl t (h pl (List.mem_cons_self pl rest))]

/-- Processing the snapshot position of a managed ticket either leaves the
state untouched, or the scan found a hit target j for the current record and
exactly j was appended to its consumed list. -/
theorem decideStep_self (env : Env) (settings : Settings) (handlers : List ℤ)
    (acc : DecideAcc) (pos : Position) (login t : ℤ) (info : TicketInfo)
    (ht : pos.ticket = t) (hget : dictGet acc.st t = some info) :
    (decideStep env settings handlers acc (pos, login)).st = acc.st ∨
    ∃ tk j, env.tick pos.symbol = some tk ∧
      firstHitTP env settings pos.symbol info.closed_tps pos.ptype
        (if pos.ptype = ORDER_TYPE_SELL then tk.bid else tk.ask) info.signal.tps 1
        = some j ∧
      dictGet (decideStep env settings handlers acc (pos, login)).st t =
        some { info with closed_tps := info.closed_tps ++ [j] } := by
  subst ht
  simp only [decideStep]
  split
  · exact Or.inl rfl
  · rename_i pos_info hg
    have hinfo : pos_info = info := by
      rw [hget] at hg
      exact (Option.some.inj hg).symm
    subst hinfo
    split
    · exact Or.inl rfl
    · split
      · exact Or.inl rfl
      · split
        · exact Or.inl rfl
        · rename_i tk htk
          split
          · exact Or.inl rfl
          · rename_i j hfh
            right
            refine ⟨tk, j, htk, hfh, ?_⟩
            split
            · exact dictGet_dictSet_self _ _ _
            · exact dictGet_dictSet_self _ _ _

/-- Along the full decision loop, the record of a managed ticket that
occurs at most once in the snapshot either survives unchanged or gets
exactly one hit target appended, the one the scan reports for it. -/
theorem decideList_dichotomy (env : Env) (settings : Settings) (handlers : List ℤ)
    (positions : List (Position × ℤ)) (acc : DecideAcc) (t : ℤ) (info : TicketInfo)
    (hnodup : (positions.map (fun pl => pl.1.ticket)).Nodup)
    (hget : dictGet acc.st t = some info) :
    dictGet (decideList env settings handlers positions acc).st t = some info ∨
    ∃ pos login tk j, (pos, login) ∈ positions ∧ pos.ticket = t ∧
      env.tick pos.symbol = some tk ∧
      firstHitTP env settings pos.symbol info.closed_tps pos.ptype
        (if pos.ptype = ORDER_TYPE_SELL then tk.bid else tk.ask) info.signal.tps 1
        = some j ∧
      dictGet (decideList env settings handlers positions acc).st t =
        some { info with closed_tps := info.closed_tps ++ [j] } := by
  induction positions generalizing acc with
  | nil => exact Or.inl hget
  | cons pl rest ih =>
    obtain ⟨pos, login⟩ := pl
    have hnd1 : pos.ticket ∉ rest.map (fun pl => pl.1.ticket) :=
      (List.nodup_cons.mp hnodup).1
    have hnd2 : (rest.map (fun pl => pl.1.ticket)).Nodup :=
      (List.nodup_cons.mp hnodup).2
    by_cases ht : pos.ticket = t
    · rcases decideStep_self env settings handlers acc pos login t info ht hget
        with hid | ⟨tk, j, htk, hfh, hres⟩
      · have hget2 : dictGet (decideStep env settings handlers acc (pos, login)).st t
            = some info := by rw [hid]; exact hget
        rcases ih _ hnd2 hget2 with h | ⟨p2, l2, tk2, j2, hm2, ht2, htk2, hfh2, hres2⟩
        · exact Or.inl h
        · exact Or.inr ⟨p2, l2, tk2, j2, List.mem_cons_of_mem _ hm2, ht2, htk2,
            hfh2, hres2⟩
      · have hrest : ∀ x ∈ rest, x.1.ticket ≠ t := by
          intro x hx he
          exact hnd1 (by
            rw [ht]
            rw [← he]
            exact List.mem_map.mpr ⟨x, hx, rfl⟩)
        right
        refine ⟨pos, login, tk, j, List.mem_cons_self _ _, ht, htk, hfh, ?_⟩
        rw [decideList, decideList_get_notin env settings handlers rest _ t hrest]
        exact hres
    · have hget2 : dictGet (decideStep env settings handlers acc (pos, login)).st t
          = some info := by
        rw [decideStep_get_ne env settings handlers acc (pos, login) t ht]
        exact hget
      rcases ih _ hnd2 hget2 with h | ⟨p2, l2, tk2, j2, hm2, ht2, htk2, hfh2, hres2⟩
      · exact Or.inl h
      · exact Or.inr ⟨p2, l2, tk2, j2, List.mem_cons_of_mem _ hm2, ht2, htk2,
          hfh2, hres2⟩

/-- When every guard passes and the scan reports a hit, the decision step
records the target and schedules the partial close of
original_volume / num_tps rounded to two decimals. -/
theorem decideStep_fires (env : Env) (settings : Settings) (handlers : List ℤ)
    (acc : DecideAcc) (pos : Position) (login t : ℤ) (info : TicketInfo)
    (j : ℤ) (tk : Tick) (m0 : SymbolMeta) (h0 : ℤ)
    (ht : pos.ticket = t) (hget : dictGet acc.st t = some info)
    (hh : findHandlerByLogin handlers login = some h0)
    (hm : env.symbolMeta pos.symbol = some m0)
    (htk : env.tick pos.symbol = some tk)
    (hfh : firstHitTP env settings pos.symbol info.closed_tps pos.ptype
      (if pos.ptype = ORDER_TYPE_SELL then tk.bid else tk.ask) info.signal.tps 1
      = some j) :
    dictGet (decideStep env settings handlers acc (pos, login)).st t =
      some { info with closed_tps := info.closed_tps ++ [j] } ∧
    Action.close pos (pyRound2 (info.original_volume / (info.signal.num_tps : ℚ))) login
      ∈ (decideStep env settings handlers acc (pos, login)).actions := by
  subst ht
  simp only [decideStep]
  split
  · rename_i hg
    rw [hget] at hg
    cases hg
  · rename_i pos_info hg
    have hpi : pos_info = info := by rw [hget] at hg; exact (Option.some.inj hg).symm
    subst hpi
    split
    · rename_i hh2
      rw [hh] at hh2
      cases hh2
    · split
      · rename_i hm2
        rw [hm] at hm2
        cases hm2
      · split
        · rename_i ht2
          rw [htk] at ht2
          cases ht2
        · rename_i tk2 htk2
          have htke : tk2 = tk := by rw [htk] at htk2; exact (Option.some.inj htk2).symm
          subst htke
          split
          · rename_i hf2
            rw [hfh] at hf2
            cases hf2
          · rename_i j2 hf2
            have hje : j2 = j := by rw [hfh] at hf2; exact (Option.some.inj hf2).symm
            subst hje
            split
            · exact ⟨dictGet_dictSet_self _ _ _, by simp⟩
            · exact ⟨dictGet_dictSet_self _ _ _, by simp⟩

theorem decideList_fires (env : Env) (settings : Settings) (handlers : List ℤ)
    (positions : List (Position × ℤ)) (acc : DecideAcc) (pos : Position)
    (login t : ℤ) (info : TicketInfo) (j : ℤ) (tk : Tick) (m0 : SymbolMeta) (h0 : ℤ)
    (hnodup : (positions.map (fun pl => pl.1.ticket)).Nodup)
    (hmem : (pos, login) ∈ positions)
    (ht : pos.ticket = t) (hget : dictGet acc.st t = some info)
    (hh : findHandlerByLogin handlers login = some h0)
    (hm : env.symbolMeta pos.symbol = some m0)
    (htk : env.tick pos.symbol = some tk)
    (hfh : firstHitTP env settings pos.symbol info.closed_tps pos.ptype
      (if pos.ptype = ORDER_TYPE_SELL then tk.bid else tk.ask) info.signal.tps 1
      = some j) :
    dictGet (decideList env settings handlers positions acc).st t =
      some { info with closed_tps := info.closed_tps ++ [j] } ∧
    Action.close pos (pyRound2 (info.original_volume / (info.signal.num_tps : ℚ))) login
      ∈ (decideList env settings handlers positions acc).actions := by
  induction positions generalizing acc with
  | nil => cases hmem
  | cons pl rest ih =>
    have hnd1 : pl.1.ticket ∉ rest.map (fun x => x.1.ticket) :=
      (List.nodup_cons.mp hnodup).1
    have hnd2 : (rest.map (fun x => x.1.ticket)).Nodup :=
      (List.nodup_cons.mp hnodup).2
    rcases List.mem_cons.mp hmem with he | hm2
    · have hpl : pl = (pos, login) := he.symm
      subst hpl
      have hstep := decideStep_fires env settings handlers acc pos login t info j tk
        m0 h0 ht hget hh hm htk hfh
      have hrest : ∀ x ∈ rest, x.1.ticket ≠ t := by
        intro x hx hxe
        exact hnd1 (by
          show (pos, login).1.ticket ∈ _
          rw [show (pos, login).1.ticket = t from ht, ← hxe]
          exact List.mem_map.mpr ⟨x, hx, rfl⟩)
      constructor
      · rw [decideList, decideList_get_notin env settings handlers rest _ t hrest]
        exact hstep.1
      · rw [decideList]
        obtain ⟨ext, hext⟩ := decideList_actions_mono env settings handlers rest
          (decideStep env settings handlers acc (pos, login))
        rw [hext]
        exact List.mem_append_left _ hstep.2
    · have hne : pl.1.ticket ≠ t := by
        intro hxe
        refine hnd1 ?_
        rw [hxe, ← ht]
        exact List.mem_map.mpr ⟨(pos, login), hm2, rfl⟩
      have hget2 : dictGet (decideStep env settings handlers acc pl).st t = some info := by
        rw [decideStep_get_ne env settings handlers acc pl t hne]
        exact hget
      exact ih _ hnd2 hm2 hget2

theorem applyActions_closes_mono (env : Env) (handlers : List ℤ)
    (positions : List (Position × ℤ)) (orders : List (Order × ℤ))
    (acts : List Action) (acc : ApplyAcc) :
    ∃ ext : List CloseReq,
      (applyActions env handlers positions orders acts acc).closes =
        acc.closes ++ ext := by
  induction acts generalizing acc with
  | nil => exact ⟨[], by simp [applyActions]⟩
  | cons a rest ih =>
    cases a with
    | close pos volume login =>
      simp only [applyActions]
      obtain ⟨ext, hext⟩ := ih
        { acc with closes := acc.closes ++ [⟨pos.ticket, login, volume⟩] }
      exact ⟨[⟨pos.ticket, login, volume⟩] ++ ext, by rw [hext]; simp⟩
    | secure_group g =>
      simp only [applyActions]
      split
      · exact ih acc
      · obtain ⟨ext, hext⟩ := ih _
        exact ⟨ext, by rw [hext]⟩

/-- Every scheduled close action is turned into the corresponding close
request during the apply phase. -/
theorem applyActions_close_mem (env : Env) (handlers : List ℤ)
    (positions : List (Position × ℤ)) (orders : List (Order × ℤ))
    (acts : List Action) (acc : ApplyAcc) (pos : Position) (v : ℚ) (login : ℤ)
    (h : Action.close pos v login ∈ acts) :
    (⟨pos.ticket, login, v⟩ : CloseReq) ∈
      (applyActions env handlers positions orders acts acc).closes := by
  induction acts generalizing acc with
  | nil => cases h
  | cons a rest ih =>
    rcases List.mem_cons.mp h with he | hm2
    · subst he
      simp only [applyActions]
      obtain ⟨ext, hext⟩ := applyActions_closes_mono env handlers positions orders rest
        { acc with closes := acc.closes ++ [⟨pos.ticket, login, v⟩] }
      rw [hext]
      simp
    · cases a with
      | close p2 v2 l2 =>
        simp only [applyActions]
        exact ih _ hm2
      | secure_group g =>
        simp only [applyActions]
        split
        · exact ih acc hm2
        · exact ih _ hm2

/-- C7: in one decision pass, a managed position whose ticket occurs once
in the snapshot gains at most one new consumed take-profit index, and when
one is recorded it is the smallest not-yet-consumed index whose hit
condition holds against the current price (the scan runs in ascending
order). -/
theorem C7_minimal_hit (env : Env) (settings : Settings) (handlers : List ℤ)
    (positions : List (Position × ℤ)) (st : MState) (t : ℤ)
    (info info2 : TicketInfo)
    (hnodup : (positions.map (fun pl => pl.1.ticket)).Nodup)
    (h1 : dictGet st t = some info)
    (h2 : dictGet (decideOnPositionActions env settings handlers positions st).2.2 t
      = some info2) :
    info2 = info ∨
    ∃ pos login tk j, (pos, login) ∈ positions ∧ pos.ticket = t ∧
      env.tick pos.symbol = some tk ∧
      info2 = { info with closed_tps := info.closed_tps ++ [j] } ∧
      tpHit env settings pos.symbol info.closed_tps pos.ptype
        (if pos.ptype = ORDER_TYPE_SELL then tk.bid else tk.ask) info.signal.tps j ∧
      ∀ i, 1 ≤ i → i < j →
        ¬ tpHit env settings pos.symbol info.closed_tps pos.ptype
            (if pos.ptype = ORDER_TYPE_SELL then tk.bid else tk.ask)
            info.signal.tps i := by
  have hmain := decideList_dichotomy env settings handlers positions
    ⟨[], false, st, initialSecuredGroups st⟩ t info hnodup h1
  rcases hmain with h | ⟨pos, login, tk, j, hmem, ht, htk, hfh, hres⟩
  · left
    have h3 : dictGet (decideOnPositionActions env settings handlers positions st).2.2 t
        = some info := h
    exact Option.some.inj (h2.symm.trans h3)
  · right
    have hch := (firstHitTP_iff env settings pos.symbol info.closed_tps pos.ptype
      (if pos.ptype = ORDER_TYPE_SELL then tk.bid else tk.ask) info.signal.tps 1 j).mp hfh
    have h3 : dictGet (decideOnPositionActions env settings handlers positions st).2.2 t
        = some { info with closed_tps := info.closed_tps ++ [j] } := hres
    exact ⟨pos, login, tk, j, hmem, ht, htk, Option.some.inj (h2.symm.trans h3),
      hch.1, hch.2⟩

/-- C7 (witness): the minimal-hit dichotomy at a concrete snapshot where
target 1 of ticket 5 is hit. -/
theorem C7_minimal_hit_witness :
    (⟨7, ⟨"X", [100, 200], 2⟩, 1, [1], false, "g", 0⟩ : TicketInfo) =
      ⟨7, ⟨"X", [100, 200], 2⟩, 1, [], false, "g", 0⟩ ∨
    ∃ pos login tk j,
      (pos, login) ∈ [((⟨5, "X", 1, 0, 90, 0⟩ : Position), (7 : ℤ))] ∧
      pos.ticket = 5 ∧
      (⟨fun s => if s = "X" then some ⟨5, 1/100000⟩ else none,
        fun s => if s = "X" then some ⟨150, 150⟩ else none,
        fun _ => false⟩ : Env).tick pos.symbol = some tk ∧
      (⟨7, ⟨"X", [100, 200], 2⟩, 1, [1], false, "g", 0⟩ : TicketInfo) =
        { (⟨7, ⟨"X", [100, 200], 2⟩, 1, [], false, "g", 0⟩ : TicketInfo) with
          closed_tps := [] ++ [j] } ∧
      tpHit ⟨fun s => if s = "X" then some ⟨5, 1/100000⟩ else none,
          fun s => if s = "X" then some ⟨150, 150⟩ else none, fun _ => false⟩
        ⟨0⟩ pos.symbol [] pos.ptype
        (if pos.ptype = ORDER_TYPE_SELL then tk.bid else tk.ask) [100, 200] j ∧
      ∀ i, 1 ≤ i → i < j →
        ¬ tpHit ⟨fun s => if s = "X" then some ⟨5, 1/100000⟩ else none,
            fun s => if s = "X" then some ⟨150, 150⟩ else none, fun _ => false⟩
          ⟨0⟩ pos.symbol [] pos.ptype
          (if pos.ptype = ORDER_TYPE_SELL then tk.bid else tk.ask) [100, 200] i :=
  C7_minimal_hit
    ⟨fun s => if s = "X" then some ⟨5, 1/100000⟩ else none,
     fun s => if s = "X" then some ⟨150, 150⟩ else none, fun _ => false⟩
    ⟨0⟩ [7] [(⟨5, "X", 1, 0, 90, 0⟩, 7)]
    [(5, ⟨7, ⟨"X", [100, 200], 2⟩, 1, [], false, "g", 0⟩)] 5
    ⟨7, ⟨"X", [100, 200], 2⟩, 1, [], false, "g", 0⟩
    ⟨7, ⟨"X", [100, 200], 2⟩, 1, [1], false, "g", 0⟩
    (by decide) (by decide)
    (by norm_num [decideOnPositionActions, decideList, decideStep, dictGet,
      findHandlerByLogin, initialSecuredGroups, firstHitTP, hitCond,
      bufferAmount_zero, dictSet, dictHas, ORDER_TYPE_BUY, ORDER_TYPE_SELL])

/-- C6: when the scan decides take-profit j as hit for managed position t,
the index is appended to closed_tps already in the in-lock phase (before
the apply phase issues any venue call), the corresponding partial close of
original_volume / num_tps (rounded to two decimals) is scheduled and its
venue request issued, the index is still recorded in the final state no
matter what any venue call returned (close results never feed back into
state), and no later scan over the resulting record can ever return j
again. -/
theorem C6_mark_before_close (env : Env) (settings : Settings) (handlers : List ℤ)
    (queue : List RegTask) (positions : List (Position × ℤ))
    (orders : List (Order × ℤ)) (st : MState) (t : ℤ) (pos : Position)
    (login : ℤ) (info : TicketInfo) (j : ℤ) (tk : Tick) (m0 : SymbolMeta)
    (hnodup : (positions.map (fun pl => pl.1.ticket)).Nodup)
    (hq : ∀ task ∈ queue, task.ticket ≠ t)
    (hmem : (pos, login) ∈ positions)
    (ht : pos.ticket = t)
    (hget : dictGet st t = some info)
    (hlogin : login ∈ handlers)
    (hm : env.symbolMeta pos.symbol = some m0)
    (htk : env.tick pos.symbol = some tk)
    (hfh : firstHitTP env settings pos.symbol info.closed_tps pos.ptype
      (if pos.ptype = ORDER_TYPE_SELL then tk.bid else tk.ask) info.signal.tps 1
      = some j) :
    dictGet (runIteration env settings handlers queue positions orders st).stateAfterDecide
        t = some { info with closed_tps := info.closed_tps ++ [j] } ∧
    Action.close pos (pyRound2 (info.original_volume / (info.signal.num_tps : ℚ))) login
      ∈ (runIteration env settings handlers queue positions orders st).actions ∧
    (⟨t, login, pyRound2 (info.original_volume / (info.signal.num_tps : ℚ))⟩ : CloseReq)
      ∈ (runIteration env settings handlers queue positions orders st).closeCalls ∧
    ∃ info4,
      dictGet (runIteration env settings handlers queue positions orders st).state t
        = some info4 ∧
      j ∈ info4.closed_tps ∧
      ∀ (env2 : Env) (settings2 : Settings) (sym2 : String) (ptype2 : ℤ)
        (price2 : ℚ) (tps2 : List ℚ) (n2 : ℤ),
        firstHitTP env2 settings2 sym2 info4.closed_tps ptype2 price2 tps2 n2
          ≠ some j := by
  have h1 : dictGet (processRegistrationQueue queue st).1 t = some info :=
    (processQueue_get_ne queue st t hq).trans hget
  have hactive : (activeTickets positions orders).contains t = true := by
    have hmemt : t ∈ activeTickets positions orders := by
      refine List.mem_append_left _ ?_
      exact List.mem_map.mpr ⟨(pos, login), hmem, ht⟩
    exact List.elem_eq_true_of_mem hmemt
  have h2 : dictGet (cleanupClosedTrades handlers positions orders
      (processRegistrationQueue queue st).1).1 t = some info := by
    rw [cleanup_get, hactive, if_pos rfl]
    exact h1
  have hfires := decideList_fires env settings handlers positions
    ⟨[], false,
      (cleanupClosedTrades handlers positions orders
        (processRegistrationQueue queue st).1).1,
      initialSecuredGroups
        (cleanupClosedTrades handlers positions orders
          (processRegistrationQueue queue st).1).1⟩
    pos login t info j tk m0 login hnodup hmem ht h2
    (findHandler_of_mem handlers login hlogin) hm htk hfh
  have hafter : dictGet (runIteration env settings handlers queue positions orders
      st).stateAfterDecide t = some { info with closed_tps := info.closed_tps ++ [j] } :=
    hfires.1
  have hact : Action.close pos
      (pyRound2 (info.original_volume / (info.signal.num_tps : ℚ))) login
      ∈ (runIteration env settings handlers queue positions orders st).actions :=
    hfires.2
  refine ⟨hafter, hact, ?_, ?_⟩
  · have := applyActions_close_mem env handlers positions orders
      (runIteration env settings handlers queue positions orders st).actions
      ⟨(runIteration env settings handlers queue positions orders st).stateAfterDecide,
        [], [], [], []⟩ pos
      (pyRound2 (info.original_volume / (info.signal.num_tps : ℚ))) login hact
    rw [ht] at this
    exact this
  · have hevo := runIteration_evo env settings handlers queue positions orders st t
    rw [hafter] at hevo
    rcases hevo with he | ⟨hok, i, ha, hb⟩
    · refine ⟨{ info with closed_tps := info.closed_tps ++ [j] }, he, by simp, ?_⟩
      intro env2 settings2 sym2 ptype2 price2 tps2 n2 hcontra
      have := firstHitTP_notin env2 settings2 sym2 _ ptype2 price2 tps2 n2 j hcontra
      simp at this
    · have hie : i = { info with closed_tps := info.closed_tps ++ [j] } :=
        (Option.some.inj ha).symm
      subst hie
      refine ⟨_, hb, by simp, ?_⟩
      intro env2 settings2 sym2 ptype2 price2 tps2 n2 hcontra
      have := firstHitTP_notin env2 settings2 sym2 _ ptype2 price2 tps2 n2 j hcontra
      simp at this

/-- C6 (witness): the mark-before-close behaviour at the concrete snapshot
where target 1 of ticket 5 is hit at price 150. -/
theorem C6_mark_before_close_witness :
    dictGet (runIteration
        ⟨fun s => if s = "X" then some ⟨5, 1/100000⟩ else none,
         fun s => if s = "X" then some ⟨150, 150⟩ else none, fun _ => false⟩
        ⟨0⟩ [7] [] [(⟨5, "X", 1, 0, 90, 0⟩, 7)] []
        [(5, ⟨7, ⟨"X", [100, 200], 2⟩, 1, [], false, "g", 0⟩)]).stateAfterDecide 5 =
      some { (⟨7, ⟨"X", [100, 200], 2⟩, 1, [], false, "g", 0⟩ : TicketInfo) with
        closed_tps := [] ++ [1] } ∧
    Action.close ⟨5, "X", 1, 0, 90, 0⟩ (pyRound2 ((1 : ℚ) / ((2 : ℤ) : ℚ))) 7
      ∈ (runIteration
        ⟨fun s => if s = "X" then some ⟨5, 1/100000⟩ else none,
         fun s => if s = "X" then some ⟨150, 150⟩ else none, fun _ => false⟩
        ⟨0⟩ [7] [] [(⟨5, "X", 1, 0, 90, 0⟩, 7)] []
        [(5, ⟨7, ⟨"X", [100, 200], 2⟩, 1, [], false, "g", 0⟩)]).actions ∧
    (⟨5, 7, pyRound2 ((1 : ℚ) / ((2 : ℤ) : ℚ))⟩ : CloseReq)
      ∈ (runIteration
        ⟨fun s => if s = "X" then some ⟨5, 1/100000⟩ else none,
         fun s => if s = "X" then some ⟨150, 150⟩ else none, fun _ => false⟩
        ⟨0⟩ [7] [] [(⟨5, "X", 1, 0, 90, 0⟩, 7)] []
        [(5, ⟨7, ⟨"X", [100, 200], 2⟩, 1, [], false, "g", 0⟩)]).closeCalls ∧
    ∃ info4,
      dictGet (runIteration
        ⟨fun s => if s = "X" then some ⟨5, 1/100000⟩ else none,
         fun s => if s = "X" then some ⟨150, 150⟩ else none, fun _ => false⟩
        ⟨0⟩ [7] [] [(⟨5, "X", 1, 0, 90, 0⟩, 7)] []
        [(5, ⟨7, ⟨"X", [100, 200], 2⟩, 1, [], false, "g", 0⟩)]).state 5 = some info4 ∧
      (1 : ℤ) ∈ info4.closed_tps ∧
      ∀ (env2 : Env) (settings2 : Settings) (sym2 : String) (ptype2 : ℤ)
        (price2 : ℚ) (tps2 : List ℚ) (n2 : ℤ),
        firstHitTP env2 settings2 sym2 info4.closed_tps ptype2 price2 tps2 n2
          ≠ some 1 :=
  C6_mark_before_close
    ⟨fun s => if s = "X" then some ⟨5, 1/100000⟩ else none,
     fun s => if s = "X" then some ⟨150, 150⟩ else none, fun _ => false⟩
    ⟨0⟩ [7] [] [(⟨5, "X", 1, 0, 90, 0⟩, 7)] []
    [(5, ⟨7, ⟨"X", [100, 200], 2⟩, 1, [], false, "g", 0⟩)] 5 ⟨5, "X", 1, 0, 90, 0⟩ 7
    ⟨7, ⟨"X", [100, 200], 2⟩, 1, [], false, "g", 0⟩ 1 ⟨150, 150⟩ ⟨5, 1/100000⟩
    (by decide) (by simp) (List.mem_singleton.mpr rfl) rfl (by decide) (by decide)
    rfl rfl
    (by norm_num [firstHitTP, hitCond, bufferAmount_zero, ORDER_TYPE_BUY,
      ORDER_TYPE_SELL])

/-! ### Claims C8 and C9: the persisted state store (_save_state and
_load_state)

The JSON layer is modelled structurally: an integer dict key is serialized
by json.dump to its decimal string, represented here as a sign flag plus
the little-endian decimal digit list; int() parses it back, failing
(ValueError) on an empty or non-decimal digit sequence.  A persisted file
is either absent, unreadable (open raises OSError), undecodable
(json.JSONDecodeError), or a decoded JSON top-level value: an object with
keyed records, or a non-object value, on which .items() raises
AttributeError. -/

/-- A serialized dict key: the decimal string of an integer. -/
structure JKey where
  neg : Bool
  digits : List ℕ
deriving DecidableEq

/-- Python str of an int, as written by json.dump for an int dict key. -/
def pyStrOfInt (k : ℤ) : JKey :=
  ⟨decide (k < 0), if k = 0 then [0] else Nat.digits 10 k.natAbs⟩

/-- Python int of a decimal string (the int(k) of _load_state): fails with
ValueError on an empty or non-decimal digit sequence. -/
def pyIntOfStr (s : JKey) : Option ℤ :=
  if s.digits = [] ∨ ∃ d ∈ s.digits, 10 ≤ d then none
  else some ((if s.neg then -1 else 1) * ((Nat.ofDigits 10 s.digits : ℕ) : ℤ))

/-- int(str(k)) recovers k: the key round trip of the state store. -/
theorem pyIntOfStr_pyStrOfInt (k : ℤ) : pyIntOfStr (pyStrOfInt k) = some k := by
  unfold pyStrOfInt pyIntOfStr
  by_cases hk : k = 0
  · subst hk
    norm_num [Nat.ofDigits]
  · simp only [if_neg hk]
    have hne : Nat.digits 10 k.natAbs ≠ [] :=
      Nat.digits_ne_nil_iff_ne_zero.mpr (by simpa using hk)
    have hlt : ¬ ∃ d ∈ Nat.digits 10 k.natAbs, 10 ≤ d := by
      rintro ⟨d, hd, h10⟩
      exact absurd (Nat.digits_lt_base (by norm_num) hd) (by omega)
    rw [if_neg (by
      rintro (h | h)
      · exact hne h
      · exact hlt h)]
    have hod : ((Nat.ofDigits 10 (Nat.digits 10 k.natAbs) : ℕ) : ℤ) = (k.natAbs : ℤ) := by
      rw [Nat.ofDigits_digits]
    rw [hod]
    by_cases hneg : k < 0
    · rw [if_pos (by simpa using hneg)]
      congr 1
      omega
    · rw [if_neg (by simpa using hneg)]
      congr 1
      omega

/-- A decoded JSON top-level value. -/
inductive JTop where
  | obj (entries : List (JKey × TicketInfo))
  | nonObject
deriving DecidableEq

/-- The observable condition of the persisted state file at load time. -/
inductive FileState where
  | absent
  | unreadable
  | content (j : Option JTop)
deriving DecidableEq

/-- A Python exception escaping _load_state. -/
inductive PyError where
  | osError
  | attributeError
deriving DecidableEq

/-- The dict comprehension of _load_state (line 26): rebuild the dict with
int keys, aborting with ValueError (none) at the first unparsable key. -/
def decodeEntriesAux (acc : MState) : List (JKey × TicketInfo) → Option MState
  | [] => some acc
  | (k, v) :: rest =>
    match pyIntOfStr k with
    | none => none
    | some t => decodeEntriesAux (dictSet acc t v) rest

/-- PartialClosingManager._load_state (lines 20-30): a missing file yields
the empty state; json.JSONDecodeError and ValueError are caught and yield
the empty state (logged); an unreadable file or a non-object JSON top level
raises an exception that escapes. -/
def load_state (fs : FileState) : Except PyError MState :=
  match fs with
  | .absent => .ok []
  | .unreadable => .error .osError
  | .content none => .ok []
  | .content (some (.obj entries)) =>
    match decodeEntriesAux [] entries with
    | some m => .ok m
    | none => .ok []
  | .content (some .nonObject) => .error .attributeError

/-- PartialClosingManager._save_state (lines 32-40): dump the whole dict,
int keys serialized to their decimal strings. -/
def save_state (st : MState) : FileState :=
  .content (some (.obj (st.map (fun p => (pyStrOfInt p.1, p.2)))))

theorem dictHas_iff_mem (st : MState) (k : ℤ) :
    dictHas st k = true ↔ k ∈ st.map Prod.fst := by
  induction st with
  | nil => simp [dictHas]
  | cons p rest ih =>
    by_cases h : p.1 = k
    · simp [dictHas, h]
    · simp [dictHas, h, ih, Ne.symm h]

theorem decodeEntriesAux_encode (st : MState) (acc : MState)
    (hnodup : (acc.map Prod.fst ++ st.map Prod.fst).Nodup) :
    decodeEntriesAux acc (st.map (fun p => (pyStrOfInt p.1, p.2))) = some (acc ++ st) := by
  induction st generalizing acc with
  | nil => simp [decodeEntriesAux]
  | cons p rest ih =>
    simp only [List.map_cons, decodeEntriesAux, pyIntOfStr_pyStrOfInt]
    have hdisj : (acc.map Prod.fst).Disjoint (p.1 :: rest.map Prod.fst) := by
      have := List.nodup_append.mp (by simpa using hnodup)
      exact this.2.2
    have hnot : ¬ dictHas acc p.1 = true := by
      rw [dictHas_iff_mem]
      intro hmem
      exact hdisj hmem (List.mem_cons_self _ _)
    rw [show dictSet acc p.1 p.2 = acc ++ [(p.1, p.2)] from by
      unfold dictSet; rw [if_neg hnot]]
    rw [ih (acc ++ [(p.1, p.2)]) (by
      simp only [List.map_append, List.map_cons, List.map_nil]
      rw [List.append_assoc]
      simpa using hnodup)]
    simp

/-- Saving and re-loading a well-formed managed state is the identity. -/
theorem save_load_id (st : MState) (hnodup : (st.map Prod.fst).Nodup) :
    load_state (save_state st) = Except.ok st := by
  simp only [save_state, load_state]
  rw [decodeEntriesAux_encode st [] (by simpa using hnodup)]
  simp

/-- C8: saving a managed state and loading it back yields, for every
ticket, a record with identical closed_tps and identical is_secured (in
fact the whole state is reproduced verbatim). -/
theorem C8_save_load (st : MState) (hnodup : (st.map Prod.fst).Nodup) :
    ∃ st2, load_state (save_state st) = Except.ok st2 ∧
      ∀ t info, dictGet st t = some info →
        ∃ info2, dictGet st2 t = some info2 ∧
          info2.closed_tps = info.closed_tps ∧ info2.is_secured = info.is_secured :=
  ⟨st, save_load_id st hnodup, fun _ info h => ⟨info, h, rfl, rfl⟩⟩

/-- C8 (witness): the round trip on a one-ticket state. -/
theorem C8_save_load_witness :
    ∃ st2, load_state (save_state [(5, ⟨7, ⟨"X", [100], 1⟩, 1, [1], true, "g", 0⟩)]) =
        Except.ok st2 ∧
      ∀ t info, dictGet [(5, ⟨7, ⟨"X", [100], 1⟩, 1, [1], true, "g", 0⟩)] t = some info →
        ∃ info2, dictGet st2 t = some info2 ∧
          info2.closed_tps = info.closed_tps ∧ info2.is_secured = info.is_secured :=
  C8_save_load [(5, ⟨7, ⟨"X", [100], 1⟩, 1, [1], true, "g", 0⟩)] (by decide)

/-- C9 (counterexample): a malformed state file that decodes to a JSON
value that is not an object (for example a top-level list) makes
_load_state raise AttributeError on .items(), which is not caught: loading
neither returns the empty state nor keeps the error from escaping. -/
theorem C9_counterexample :
    load_state (FileState.content (some JTop.nonObject)) =
        Except.error PyError.attributeError ∧
    load_state (FileState.content (some JTop.nonObject)) ≠
        Except.ok ([] : MState) := by
  constructor
  · rfl
  · intro h
    cases h

theorem decodeEntriesAux_badkey (entries : List (JKey × TicketInfo)) (acc : MState)
    (p : JKey × TicketInfo) (hmem : p ∈ entries) (hbad : pyIntOfStr p.1 = none) :
    decodeEntriesAux acc entries = none := by
  induction entries generalizing acc with
  | nil => cases hmem
  | cons q rest ih =>
    obtain ⟨k, v⟩ := q
    simp only [decodeEntriesAux]
    split
    · rfl
    · rename_i t hq
      rcases List.mem_cons.mp hmem with he | hm2
      · rw [he] at hbad
        rw [hbad] at hq
        cases hq
      · exact ih _ hm2

/-- C9 (amended): a missing file, a file that fails JSON decoding, and a
decoded JSON object containing a key that is not a valid integer literal
all load as the empty state with the event logged; but a file decoding to
a non-object JSON value raises AttributeError and an unreadable file
raises OSError, both escaping _load_state. -/
theorem C9_amended :
    load_state FileState.absent = Except.ok [] ∧
    load_state (FileState.content none) = Except.ok [] ∧
    (∀ (entries : List (JKey × TicketInfo)) (p : JKey × TicketInfo),
      p ∈ entries → pyIntOfStr p.1 = none →
      load_state (FileState.content (some (JTop.obj entries))) = Except.ok []) ∧
    load_state FileState.unreadable = Except.error PyError.osError ∧
    load_state (FileState.content (some JTop.nonObject)) =
      Except.error PyError.attributeError := by
  refine ⟨rfl, rfl, ?_, rfl, rfl⟩
  intro entries p hmem hbad
  simp only [load_state]
  rw [decodeEntriesAux_badkey entries [] p hmem hbad]

/-- C9 (witness): a JSON object whose single key holds a non-decimal digit
loads as the empty state. -/
theorem C9_amended_witness :
    load_state (FileState.content (some (JTop.obj
        [(⟨false, [12]⟩, ⟨7, ⟨"X", [100], 1⟩, 1, [], false, "g", 0⟩)]))) =
      Except.ok [] :=
  C9_amended.2.2.1 [(⟨false, [12]⟩, ⟨7, ⟨"X", [100], 1⟩, 1, [], false, "g", 0⟩)]
    (⟨false, [12]⟩, ⟨7, ⟨"X", [100], 1⟩, 1, [], false, "g", 0⟩)
    (List.mem_singleton.mpr rfl) (by decide)

end Sys1
